import Mathlib

/-!
Formal model of the researchsquare/gomainevents repository: the SQS-backed
event provider (message codec, backoff, requeue) and the listener worker
pool (dispatch, retry policy, supervision).

Modelling conventions:
* Go machine integers are modelled as `Int`; where a 64-bit overflow is
  reachable (the retry counter increment inside DelaySeconds) the
  two's-complement wraparound is modelled explicitly.
* The `encoding/json` library is modelled by an executable JSON value type,
  serializer and parser.  Numbers are modelled as integers (the repository's
  payloads carry strings and objects only); Go's sorting of map keys on
  marshal and its case-insensitive field matching are not observable in the
  map semantics the claims are stated over and are modelled by association
  lists kept in document order.
* Fallible operations return `Option`.
-/

/-- JSON values as handled by the provider's codec. -/
inductive JSONValue where
  | null : JSONValue
  | bool : Bool → JSONValue
  | num : Int → JSONValue
  | str : String → JSONValue
  | arr : List JSONValue → JSONValue
  | obj : List (String × JSONValue) → JSONValue

/-- Whitespace characters that JSON permits between tokens: space, tab,
line feed, carriage return. -/
def isWsChar (c : Char) : Bool :=
  c.toNat == 32 || c.toNat == 9 || c.toNat == 10 || c.toNat == 13

/-- Decimal digit test on a character. -/
def isDigitChar (c : Char) : Bool :=
  48 ≤ c.toNat && c.toNat ≤ 57

/-- Numeric value of a decimal digit character. -/
def digitVal (c : Char) : Nat := c.toNat - 48

/-- Decimal digit character for a value below ten. -/
def digitChar : Nat → Char
  | 0 => '0'
  | 1 => '1'
  | 2 => '2'
  | 3 => '3'
  | 4 => '4'
  | 5 => '5'
  | 6 => '6'
  | 7 => '7'
  | 8 => '8'
  | 9 => '9'
  | _ => '0'

/-- Hexadecimal digit character for a value below sixteen. -/
def hexDigitChar (n : Nat) : Char :=
  if n < 10 then digitChar n
  else if n = 10 then 'a'
  else if n = 11 then 'b'
  else if n = 12 then 'c'
  else if n = 13 then 'd'
  else if n = 14 then 'e'
  else 'f'

/-- Value of a hexadecimal digit character, if it is one. -/
def hexVal (c : Char) : Option Nat :=
  if 48 ≤ c.toNat ∧ c.toNat ≤ 57 then some (c.toNat - 48)
  else if 97 ≤ c.toNat ∧ c.toNat ≤ 102 then some (c.toNat - 87)
  else if 65 ≤ c.toNat ∧ c.toNat ≤ 70 then some (c.toNat - 55)
  else none

/-- Digits of a natural number, most significant first.  The fuel argument
keeps the recursion structural; any fuel above the number suffices. -/
def natChars : Nat → Nat → List Char
  | 0, _ => []
  | fuel + 1, n =>
    if n < 10 then [digitChar n]
    else natChars fuel (n / 10) ++ [digitChar (n % 10)]

/-- Decimal representation of a natural number. -/
def natRepr (n : Nat) : List Char := natChars (n + 1) n

/-- Decimal representation of an integer (Go's strconv.Itoa). -/
def intRepr (n : Int) : List Char :=
  if n < 0 then '-' :: natRepr (-n).toNat else natRepr n.toNat

/-- JSON escape of one character: quote, backslash and the common control
characters get two-character escapes, remaining control characters get a
hexadecimal escape, everything else stands for itself. -/
def escapeChar (c : Char) : List Char :=
  if c = '"' then ['\\', '"']
  else if c = '\\' then ['\\', '\\']
  else if c = '\n' then ['\\', 'n']
  else if c = '\r' then ['\\', 'r']
  else if c = '\t' then ['\\', 't']
  else if c.toNat < 32 then
    let hi := hexDigitChar (c.toNat / 16)
    let lo := hexDigitChar (c.toNat % 16)
    '\\' :: 'u' :: '0' :: '0' :: hi :: [lo]
  else [c]

/-- JSON escape of a character sequence. -/
def escapeList : List Char → List Char
  | [] => []
  | c :: rest => escapeChar c ++ escapeList rest

mutual

/-- Serialize a JSON value (model of encoding/json marshalling). -/
def serializeV : JSONValue → List Char
  | .null => ("null").data
  | .bool true => ("true").data
  | .bool false => ("false").data
  | .num n => intRepr n
  | .str s => '"' :: (escapeList s.data ++ ['"'])
  | .arr [] => ['[', ']']
  | .arr (x :: xs) => '[' :: (serializeV x ++ serializeElems xs ++ [']'])
  | .obj [] => ['\x7b', '\x7d']
  | .obj (m :: ms) => '\x7b' :: (serializeMember m ++ serializeMembers ms ++ ['\x7d'])

/-- Serialize one object member as key, colon, value. -/
def serializeMember : String × JSONValue → List Char
  | (k, v) => '"' :: (escapeList k.data ++ ('"' :: ':' :: serializeV v))

/-- Serialize the remaining object members, each preceded by a comma. -/
def serializeMembers : List (String × JSONValue) → List Char
  | [] => []
  | m :: ms => ',' :: (serializeMember m ++ serializeMembers ms)

/-- Serialize the remaining array elements, each preceded by a comma. -/
def serializeElems : List JSONValue → List Char
  | [] => []
  | x :: xs => ',' :: (serializeV x ++ serializeElems xs)

end

/-- Drop leading JSON whitespace. -/
def skipWs : List Char → List Char
  | [] => []
  | c :: rest => if isWsChar c then skipWs rest else c :: rest

/-- Value of a digit string, most significant digit first. -/
def digitsVal (l : List Char) : Nat :=
  l.foldl (fun a c => 10 * a + digitVal c) 0

/-- Longest leading run of decimal digits together with the remainder;
fails when there is no leading digit. -/
def natToken (l : List Char) : Option (Nat × List Char) :=
  let ds := l.takeWhile isDigitChar
  if ds.isEmpty then none
  else some (digitsVal ds, l.dropWhile isDigitChar)

/-- Integer token: optional minus sign followed by digits. -/
def parseIntToken (l : List Char) : Option (Int × List Char) :=
  match l with
  | '-' :: rest =>
    match natToken rest with
    | some (n, r) => some (-(n : Int), r)
    | none => none
  | _ =>
    match natToken l with
    | some (n, r) => some ((n : Int), r)
    | none => none

/-- Translate a two-character escape to the character it denotes. -/
def unescapeChar (c : Char) : Option Char :=
  if c = '"' then some '"'
  else if c = '\\' then some '\\'
  else if c = '/' then some '/'
  else if c = 'b' then some '\x08'
  else if c = 'f' then some '\x0c'
  else if c = 'n' then some '\n'
  else if c = 'r' then some '\r'
  else if c = 't' then some '\t'
  else none

/-- Parse the body of a JSON string after its opening quote: returns the
unescaped content and the input following the closing quote.  The fuel
argument keeps the recursion structural; input length plus one suffices. -/
def parseStringBody : Nat → List Char → Option (List Char × List Char)
  | 0, _ => none
  | _ + 1, [] => none
  | fuel + 1, c :: rest =>
    if c = '"' then some ([], rest)
    else if c = '\\' then
      match rest with
      | 'u' :: h1 :: h2 :: h3 :: h4 :: r =>
        match hexVal h1, hexVal h2, hexVal h3, hexVal h4 with
        | some a, some b, some c3, some d =>
          match parseStringBody fuel r with
          | some (cs, r2) => some (Char.ofNat (((a * 16 + b) * 16 + c3) * 16 + d) :: cs, r2)
          | none => none
        | _, _, _, _ => none
      | e :: r =>
        match unescapeChar e with
        | some ec =>
          match parseStringBody fuel r with
          | some (cs, r2) => some (ec :: cs, r2)
          | none => none
        | none => none
      | [] => none
    else if c.toNat < 32 then none
    else
      match parseStringBody fuel rest with
      | some (cs, r2) => some (c :: cs, r2)
      | none => none

mutual

/-- Parse one JSON value (model of encoding/json's syntax).  The fuel
argument keeps the recursion structural; input length plus one suffices. -/
def parseValue : Nat → List Char → Option (JSONValue × List Char)
  | 0, _ => none
  | fuel + 1, l =>
    match skipWs l with
    | [] => none
    | c :: rest =>
      if c == '-' || isDigitChar c then
        match parseIntToken (c :: rest) with
        | some (n, r) => some (.num n, r)
        | none => none
      else if c = '"' then
        match parseStringBody fuel rest with
        | some (cs, r) => some (.str (String.mk cs), r)
        | none => none
      else if c = '\x7b' then
        match skipWs rest with
        | '\x7d' :: r => some (.obj [], r)
        | r2 =>
          match parseMemberList fuel r2 with
          | some (kvs, r) => some (.obj kvs, r)
          | none => none
      else if c = '[' then
        match skipWs rest with
        | ']' :: r => some (.arr [], r)
        | r2 =>
          match parseElemList fuel r2 with
          | some (xs, r) => some (.arr xs, r)
          | none => none
      else if c = 't' then
        match rest with
        | 'r' :: 'u' :: 'e' :: r => some (.bool true, r)
        | _ => none
      else if c = 'f' then
        match rest with
        | 'a' :: 'l' :: 's' :: 'e' :: r => some (.bool false, r)
        | _ => none
      else if c = 'n' then
        match rest with
        | 'u' :: 'l' :: 'l' :: r => some (.null, r)
        | _ => none
      else none

/-- Parse a nonempty comma-separated member list followed by a closing
brace. -/
def parseMemberList : Nat → List Char → Option (List (String × JSONValue) × List Char)
  | 0, _ => none
  | fuel + 1, l =>
    match skipWs l with
    | '"' :: rest =>
      match parseStringBody fuel rest with
      | some (kcs, r1) =>
        match skipWs r1 with
        | ':' :: r2 =>
          match parseValue fuel r2 with
          | some (v, r3) =>
            match skipWs r3 with
            | ',' :: r4 =>
              match parseMemberList fuel r4 with
              | some (kvs, r5) => some ((String.mk kcs, v) :: kvs, r5)
              | none => none
            | '\x7d' :: r4 => some ([(String.mk kcs, v)], r4)
            | _ => none
          | none => none
        | _ => none
      | none => none
    | _ => none

/-- Parse a nonempty comma-separated element list followed by a closing
bracket. -/
def parseElemList : Nat → List Char → Option (List JSONValue × List Char)
  | 0, _ => none
  | fuel + 1, l =>
    match parseValue fuel l with
    | some (v, r1) =>
      match skipWs r1 with
      | ',' :: r2 =>
        match parseElemList fuel r2 with
        | some (xs, r3) => some (v :: xs, r3)
        | none => none
      | ']' :: r2 => some ([v], r2)
      | _ => none
    | none => none

end

/-- Parse a complete JSON document: one value with nothing but whitespace
after it (Go's json.Unmarshal rejects trailing data). -/
def parseJSON (s : String) : Option JSONValue :=
  match parseValue (s.data.length + 1) s.data with
  | some (v, rest) => if skipWs rest = [] then some v else none
  | none => none

/-- Digit characters built by `digitChar` carry their value. -/
theorem digitChar_spec : ∀ n < 10, digitVal (digitChar n) = n ∧ isDigitChar (digitChar n) = true := by
  decide

/-- Hexadecimal digit characters built by `hexDigitChar` carry their value. -/
theorem hexVal_hexDigitChar : ∀ m < 16, hexVal (hexDigitChar m) = some m := by
  decide

/-- Appending one digit multiplies the value by ten and adds the digit. -/
theorem digitsVal_append_single (l : List Char) (c : Char) :
    digitsVal (l ++ [c]) = 10 * digitsVal l + digitVal c := by
  simp [digitsVal, List.foldl_append]

/-- A digit character is not a whitespace character. -/
theorem not_ws_of_digit {c : Char} (h : isDigitChar c = true) : isWsChar c = false := by
  simp only [isDigitChar, Bool.and_eq_true, decide_eq_true_eq] at h
  by_contra hws
  simp only [Bool.not_eq_false, isWsChar, Bool.or_eq_true, beq_iff_eq] at hws
  rcases hws with ((h1 | h1) | h1) | h1 <;> omega

/-- Digit strings produced by `natChars` are nonempty, are all digits, and
evaluate back to the encoded number. -/
theorem natChars_spec : ∀ fuel n, n < fuel →
    (∃ c t, natChars fuel n = c :: t) ∧
    (∀ c ∈ natChars fuel n, isDigitChar c = true) ∧
    digitsVal (natChars fuel n) = n := by
  intro fuel
  induction fuel with
  | zero => omega
  | succ f ih =>
    intro n hn
    by_cases h10 : n < 10
    · refine ⟨⟨digitChar n, [], by simp [natChars, h10]⟩, ?_, ?_⟩
      · intro c hc
        simp [natChars, h10] at hc
        subst hc
        exact (digitChar_spec n h10).2
      · simp [natChars, h10, digitsVal, digitVal]
        have := (digitChar_spec n h10).1
        simp [digitVal] at this
        omega
    · have hdiv : n / 10 < f := by omega
      obtain ⟨⟨c, t, hct⟩, hdig, hval⟩ := ih (n / 10) hdiv
      have hne : natChars f (n / 10) ≠ [] := by simp [hct]
      refine ⟨⟨c, t ++ [digitChar (n % 10)], by simp [natChars, h10, hct]⟩, ?_, ?_⟩
      · intro d hd
        simp only [natChars, if_neg h10, List.mem_append, List.mem_singleton] at hd
        rcases hd with hd | hd
        · exact hdig d hd
        · subst hd
          exact (digitChar_spec (n % 10) (by omega)).2
      · simp only [natChars, if_neg h10]
        rw [digitsVal_append_single, hval]
        have := (digitChar_spec (n % 10) (by omega)).1
        omega

/-- Leading input that starts with no digit. -/
def nonDigitStart : List Char → Bool
  | [] => true
  | c :: _ => !isDigitChar c

/-- Taking digits from an all-digit prefix followed by a non-digit start
recovers exactly the prefix and the remainder. -/
theorem takeWhile_digits (ds rest : List Char) (hd : ∀ c ∈ ds, isDigitChar c = true)
    (hr : nonDigitStart rest = true) :
    (ds ++ rest).takeWhile isDigitChar = ds ∧ (ds ++ rest).dropWhile isDigitChar = rest := by
  induction ds with
  | nil =>
    simp only [List.nil_append]
    cases rest with
    | nil => simp
    | cons c t =>
      simp only [nonDigitStart, Bool.not_eq_true'] at hr
      simp [List.takeWhile, List.dropWhile, hr]
  | cons c t ih =>
    have hc : isDigitChar c = true := hd c (by simp)
    have ht : ∀ x ∈ t, isDigitChar x = true := fun x hx => hd x (by simp [hx])
    obtain ⟨h1, h2⟩ := ih ht
    simp [List.takeWhile, List.dropWhile, hc, h1, h2]

/-- Parsing the decimal representation of a natural number recovers it. -/
theorem natToken_repr (n : Nat) (rest : List Char) (hr : nonDigitStart rest = true) :
    natToken (natRepr n ++ rest) = some (n, rest) := by
  obtain ⟨⟨c, t, hct⟩, hdig, hval⟩ := natChars_spec (n + 1) n (by omega)
  have hct' : natRepr n = c :: t := hct
  have hdig' : ∀ x ∈ natRepr n, isDigitChar x = true := hdig
  have hval' : digitsVal (natRepr n) = n := hval
  obtain ⟨h1, h2⟩ := takeWhile_digits (natRepr n) rest hdig' hr
  have hne : (natRepr n).isEmpty = false := by rw [hct']; rfl
  simp only [natToken, h1, h2, hne, hval', Bool.false_eq_true, if_false]

/-- Parsing the decimal representation of an integer recovers it. -/
theorem parseIntToken_repr (n : Int) (rest : List Char) (hr : nonDigitStart rest = true) :
    parseIntToken (intRepr n ++ rest) = some (n, rest) := by
  by_cases hneg : n < 0
  · have h1 : intRepr n = '-' :: natRepr (-n).toNat := by
      unfold intRepr
      rw [if_pos hneg]
    rw [h1, List.cons_append]
    have h2 : parseIntToken ('-' :: (natRepr (-n).toNat ++ rest)) =
        (match natToken (natRepr (-n).toNat ++ rest) with
          | some (m, r) => some (-(m : Int), r)
          | none => none) := rfl
    rw [h2, natToken_repr _ _ hr]
    simp only [Option.some.injEq, Prod.mk.injEq]
    exact ⟨by omega, trivial⟩
  · have hrepr : intRepr n = natRepr n.toNat := by
      unfold intRepr
      rw [if_neg hneg]
    obtain ⟨⟨c, t, hct⟩, hdig, hval⟩ := natChars_spec (n.toNat + 1) n.toNat (by omega)
    have hct' : natRepr n.toNat = c :: t := hct
    have hcd : isDigitChar c = true := by
      apply hdig
      rw [show natChars (n.toNat + 1) n.toNat = natRepr n.toNat from rfl, hct']
      exact List.mem_cons_self c t
    have hcne : c ≠ '-' := by
      intro h
      rw [h] at hcd
      revert hcd
      decide
    have hrw : natRepr n.toNat ++ rest = c :: (t ++ rest) := by
      rw [hct', List.cons_append]
    rw [hrepr, hrw]
    unfold parseIntToken
    split
    · rename_i heq
      injection heq with hc _
      exact absurd hc hcne
    · rw [← hrw, natToken_repr _ _ hr]
      simp only [Option.some.injEq, Prod.mk.injEq]
      exact ⟨by omega, trivial⟩

/-- Parsing an escaped string body followed by a closing quote recovers the
original characters. -/
theorem parseStringBody_escape : ∀ (cs rest : List Char) (fuel : Nat),
    (escapeList cs).length < fuel →
    parseStringBody fuel (escapeList cs ++ '"' :: rest) = some (cs, rest) := by
  intro cs
  induction cs with
  | nil =>
    intro rest fuel h
    match fuel with
    | f + 1 => rfl
  | cons c cs ih =>
    intro rest fuel h
    have hlen : (escapeList (c :: cs)).length = (escapeChar c).length + (escapeList cs).length := by
      simp [escapeList]
    by_cases h1 : c = '"'
    · subst h1
      match fuel with
      | f + 1 =>
        have hc : escapeList ('"' :: cs) = '\\' :: '"' :: escapeList cs := by
          simp [escapeList, escapeChar]
        rw [hc]
        have hih : parseStringBody f (escapeList cs ++ '"' :: rest) = some (cs, rest) := by
          apply ih
          rw [hc] at h
          simp at h
          omega
        have hred : parseStringBody (f + 1) ('\\' :: '"' :: (escapeList cs ++ '"' :: rest)) =
            (match parseStringBody f (escapeList cs ++ '"' :: rest) with
              | some (cs2, r2) => some ('"' :: cs2, r2)
              | none => none) := rfl
        simp only [List.cons_append, hred, hih]
    · by_cases h2 : c = '\\'
      · subst h2
        match fuel with
        | f + 1 =>
          have hc : escapeList ('\\' :: cs) = '\\' :: '\\' :: escapeList cs := by
            simp [escapeList, escapeChar]
          rw [hc]
          have hih : parseStringBody f (escapeList cs ++ '"' :: rest) = some (cs, rest) := by
            apply ih
            rw [hc] at h
            simp at h
            omega
          have hred : parseStringBody (f + 1) ('\\' :: '\\' :: (escapeList cs ++ '"' :: rest)) =
              (match parseStringBody f (escapeList cs ++ '"' :: rest) with
                | some (cs2, r2) => some ('\\' :: cs2, r2)
                | none => none) := rfl
          simp only [List.cons_append, hred, hih]
      · by_cases h3 : c = '\n'
        · subst h3
          match fuel with
          | f + 1 =>
            have hc : escapeList ('\n' :: cs) = '\\' :: 'n' :: escapeList cs := by
              simp [escapeList, escapeChar]
            rw [hc]
            have hih : parseStringBody f (escapeList cs ++ '"' :: rest) = some (cs, rest) := by
              apply ih
              rw [hc] at h
              simp at h
              omega
            have hred : parseStringBody (f + 1) ('\\' :: 'n' :: (escapeList cs ++ '"' :: rest)) =
                (match parseStringBody f (escapeList cs ++ '"' :: rest) with
                  | some (cs2, r2) => some ('\n' :: cs2, r2)
                  | none => none) := rfl
            simp only [List.cons_append, hred, hih]
        · by_cases h4 : c = '\r'
          · subst h4
            match fuel with
            | f + 1 =>
              have hc : escapeList ('\r' :: cs) = '\\' :: 'r' :: escapeList cs := by
                simp [escapeList, escapeChar]
              rw [hc]
              have hih : parseStringBody f (escapeList cs ++ '"' :: rest) = some (cs, rest) := by
                apply ih
                rw [hc] at h
                simp at h
                omega
              have hred : parseStringBody (f + 1) ('\\' :: 'r' :: (escapeList cs ++ '"' :: rest)) =
                  (match parseStringBody f (escapeList cs ++ '"' :: rest) with
                    | some (cs2, r2) => some ('\r' :: cs2, r2)
                    | none => none) := rfl
              simp only [List.cons_append, hred, hih]
          · by_cases h5 : c = '\t'
            · subst h5
              match fuel with
              | f + 1 =>
                have hc : escapeList ('\t' :: cs) = '\\' :: 't' :: escapeList cs := by
                  simp [escapeList, escapeChar]
                rw [hc]
                have hih : parseStringBody f (escapeList cs ++ '"' :: rest) = some (cs, rest) := by
                  apply ih
                  rw [hc] at h
                  simp at h
                  omega
                have hred : parseStringBody (f + 1) ('\\' :: 't' :: (escapeList cs ++ '"' :: rest)) =
                    (match parseStringBody f (escapeList cs ++ '"' :: rest) with
                      | some (cs2, r2) => some ('\t' :: cs2, r2)
                      | none => none) := rfl
                simp only [List.cons_append, hred, hih]
            · by_cases h6 : c.toNat < 32
              · match fuel with
                | f + 1 =>
                  have hc : escapeList (c :: cs) =
                      '\\' :: 'u' :: '0' :: '0' :: hexDigitChar (c.toNat / 16) ::
                        hexDigitChar (c.toNat % 16) :: escapeList cs := by
                    simp [escapeList, escapeChar, h1, h2, h3, h4, h5, h6]
                  rw [hc]
                  have hih : parseStringBody f (escapeList cs ++ '"' :: rest) = some (cs, rest) := by
                    apply ih
                    rw [hc] at h
                    simp at h
                    omega
                  have hred : parseStringBody (f + 1) ('\\' :: 'u' :: '0' :: '0' ::
                      hexDigitChar (c.toNat / 16) :: hexDigitChar (c.toNat % 16) ::
                        (escapeList cs ++ '"' :: rest)) =
                      (match hexVal '0', hexVal '0', hexVal (hexDigitChar (c.toNat / 16)),
                          hexVal (hexDigitChar (c.toNat % 16)) with
                        | some a, some b, some c3, some d =>
                          (match parseStringBody f (escapeList cs ++ '"' :: rest) with
                            | some (cs2, r2) =>
                              some (Char.ofNat (((a * 16 + b) * 16 + c3) * 16 + d) :: cs2, r2)
                            | none => none)
                        | _, _, _, _ => none) := rfl
                  have e1 : hexVal (hexDigitChar (c.toNat / 16)) = some (c.toNat / 16) :=
                    hexVal_hexDigitChar _ (by omega)
                  have e2 : hexVal (hexDigitChar (c.toNat % 16)) = some (c.toNat % 16) :=
                    hexVal_hexDigitChar _ (by omega)
                  have e0 : hexVal '0' = some 0 := rfl
                  have harith : ((0 * 16 + 0) * 16 + c.toNat / 16) * 16 + c.toNat % 16 = c.toNat := by
                    omega
                  simp only [List.cons_append, hred, e0, e1, e2, hih, harith, Char.ofNat_toNat]
              · match fuel with
                | f + 1 =>
                  have hc : escapeList (c :: cs) = c :: escapeList cs := by
                    simp [escapeList, escapeChar, h1, h2, h3, h4, h5, h6]
                  rw [hc]
                  have hih : parseStringBody f (escapeList cs ++ '"' :: rest) = some (cs, rest) := by
                    apply ih
                    rw [hc] at h
                    simp at h
                    omega
                  simp only [List.cons_append, parseStringBody, if_neg h1, if_neg h2, if_neg h6,
                    List.append_eq, hih]

/-- Skipping whitespace leaves input that starts with a non-whitespace
character unchanged. -/
theorem skipWs_cons {c : Char} (l : List Char) (h : isWsChar c = false) :
    skipWs (c :: l) = c :: l := by
  simp [skipWs, h]

/-- The decimal representation of an integer starts with a minus sign or a
digit. -/
theorem intRepr_head (n : Int) :
    ∃ c t, intRepr n = c :: t ∧ (c == '-' || isDigitChar c) = true := by
  by_cases hneg : n < 0
  · refine ⟨'-', natRepr (-n).toNat, ?_, by decide⟩
    unfold intRepr
    rw [if_pos hneg]
  · obtain ⟨⟨c, t, hct⟩, hdig, _⟩ := natChars_spec (n.toNat + 1) n.toNat (by omega)
    refine ⟨c, t, ?_, ?_⟩
    · unfold intRepr
      rw [if_neg hneg]
      exact hct
    · have : isDigitChar c = true := by
        apply hdig
        rw [hct]
        exact List.mem_cons_self c t
      simp [this]

/-- A digit character is none of the structural JSON characters. -/
theorem digit_not_structural {c : Char} (h : isDigitChar c = true) :
    ¬c = ']' ∧ ¬c = '\x7d' := by
  constructor <;> intro hc <;> rw [hc] at h <;> revert h <;> decide

/-- A leading character the container parsers never confuse with a closing
delimiter or whitespace. -/
def headOk (c : Char) : Bool := !isWsChar c && !(c == ']') && !(c == '\x7d')

/-- Unpacked form of a successful head check. -/
theorem headOk_spec {c : Char} (h : headOk c = true) :
    isWsChar c = false ∧ ¬c = ']' ∧ ¬c = '\x7d' := by
  simp only [headOk, Bool.and_eq_true, Bool.not_eq_true', beq_eq_false_iff_ne, ne_eq] at h
  exact ⟨h.1.1, h.1.2, h.2⟩

/-- Every serialized JSON value starts with a non-whitespace character that
is neither a closing bracket nor a closing brace. -/
theorem serializeV_head (v : JSONValue) :
    ∃ c t, serializeV v = c :: t ∧ isWsChar c = false ∧ ¬c = ']' ∧ ¬c = '\x7d' := by
  cases v with
  | num n =>
    obtain ⟨c, t, hct, hcond⟩ := intRepr_head n
    have hcond2 : c = '-' ∨ isDigitChar c = true := by
      simpa [beq_iff_eq] using hcond
    refine ⟨c, t, hct, ?_⟩
    rcases hcond2 with hm | hd
    · subst hm
      exact headOk_spec (by decide)
    · exact ⟨not_ws_of_digit hd, digit_not_structural hd⟩
  | null => exact ⟨'n', _, rfl, headOk_spec (by decide)⟩
  | str s => exact ⟨'"', _, rfl, headOk_spec (by decide)⟩
  | bool b =>
    cases b with
    | true => exact ⟨'t', _, rfl, headOk_spec (by decide)⟩
    | false => exact ⟨'f', _, rfl, headOk_spec (by decide)⟩
  | arr xs =>
    cases xs with
    | nil => exact ⟨'[', _, rfl, headOk_spec (by decide)⟩
    | cons x xs => exact ⟨'[', _, rfl, headOk_spec (by decide)⟩
  | obj ms =>
    cases ms with
    | nil => exact ⟨'\x7b', _, rfl, headOk_spec (by decide)⟩
    | cons m ms => exact ⟨'\x7b', _, rfl, headOk_spec (by decide)⟩

/-- Serialized values are nonempty. -/
theorem serializeV_length_pos (v : JSONValue) : 1 ≤ (serializeV v).length := by
  obtain ⟨c, t, h, _⟩ := serializeV_head v
  simp [h]

/-- After a value inside an object, the input continues with a comma or a
closing brace, never a digit. -/
theorem nonDigitStart_members (ms : List (String × JSONValue)) (rest : List Char) :
    nonDigitStart (serializeMembers ms ++ '\x7d' :: rest) = true := by
  cases ms with
  | nil => rfl
  | cons m ms => rfl

/-- After a value inside an array, the input continues with a comma or a
closing bracket, never a digit. -/
theorem nonDigitStart_elems (xs : List JSONValue) (rest : List Char) :
    nonDigitStart (serializeElems xs ++ ']' :: rest) = true := by
  cases xs with
  | nil => rfl
  | cons x xs => rfl

/-- Parsing a serialized JSON value (in context: followed by arbitrary
non-digit-leading input) recovers the value exactly, together with the
corresponding statements for object member lists and array element lists. -/
theorem parse_serialize : ∀ fuel : Nat,
    (∀ v rest, (serializeV v).length < fuel → nonDigitStart rest = true →
      parseValue fuel (serializeV v ++ rest) = some (v, rest)) ∧
    (∀ (m : String × JSONValue) ms rest,
      (serializeMember m).length + (serializeMembers ms).length + 1 < fuel →
      parseMemberList fuel (serializeMember m ++ (serializeMembers ms ++ '\x7d' :: rest)) =
        some (m :: ms, rest)) ∧
    (∀ x xs rest, (serializeV x).length + (serializeElems xs).length + 1 < fuel →
      parseElemList fuel (serializeV x ++ (serializeElems xs ++ ']' :: rest)) =
        some (x :: xs, rest)) := by
  intro fuel
  induction fuel with
  | zero =>
    refine ⟨?_, ?_, ?_⟩
    · intro v rest hb _
      exact absurd hb (Nat.not_lt_zero _)
    · intro m ms rest hb
      exact absurd hb (Nat.not_lt_zero _)
    · intro x xs rest hb
      exact absurd hb (Nat.not_lt_zero _)
  | succ f ih =>
    refine ⟨?_, ?_, ?_⟩
    · intro v rest hb hr
      cases v with
      | null => rfl
      | bool b => cases b <;> rfl
      | num n =>
        obtain ⟨c, t, hct, hcond⟩ := intRepr_head n
        have hws : isWsChar c = false := by
          have hcond' : c = '-' ∨ isDigitChar c = true := by simpa [beq_iff_eq] using hcond
          rcases hcond' with hm | hd
          · rw [hm]
            decide
          · exact not_ws_of_digit hd
        have harg : serializeV (.num n) ++ rest = c :: (t ++ rest) := by
          show intRepr n ++ rest = c :: (t ++ rest)
          rw [hct]
          rfl
        rw [harg]
        simp only [parseValue]
        rw [skipWs_cons _ hws]
        simp only []
        rw [if_pos hcond]
        rw [show (c :: (t ++ rest)) = intRepr n ++ rest from harg.symm.trans (by rfl)]
        rw [parseIntToken_repr n rest hr]
      | str s =>
        have hser : serializeV (.str s) ++ rest = '"' :: (escapeList s.data ++ '"' :: rest) := by
          show '"' :: (escapeList s.data ++ ['"']) ++ rest = _
          simp [List.append_assoc]
        rw [hser]
        rw [show parseValue (f + 1) ('"' :: (escapeList s.data ++ '"' :: rest)) =
            (match parseStringBody f (escapeList s.data ++ '"' :: rest) with
              | some (cs, r) => some (.str (String.mk cs), r)
              | none => none) from rfl]
        have hbound : (escapeList s.data).length < f := by
          have hlen : (serializeV (.str s)).length = (escapeList s.data).length + 2 := by
            show ('"' :: (escapeList s.data ++ ['"'])).length = _
            simp
          omega
        rw [parseStringBody_escape s.data rest f hbound]
      | arr xs =>
        cases xs with
        | nil => rfl
        | cons x xs =>
          have hser : serializeV (.arr (x :: xs)) ++ rest =
              '[' :: (serializeV x ++ (serializeElems xs ++ ']' :: rest)) := by
            show '[' :: (serializeV x ++ serializeElems xs ++ [']']) ++ rest = _
            simp [List.append_assoc]
          rw [hser]
          rw [show parseValue (f + 1) ('[' :: (serializeV x ++ (serializeElems xs ++ ']' :: rest))) =
              (match skipWs (serializeV x ++ (serializeElems xs ++ ']' :: rest)) with
                | ']' :: r => some (.arr [], r)
                | r2 =>
                  (match parseElemList f r2 with
                    | some (xs2, r) => some (.arr xs2, r)
                    | none => none)) from rfl]
          obtain ⟨c, t, hct, hws, hnb, _⟩ := serializeV_head x
          have harg : serializeV x ++ (serializeElems xs ++ ']' :: rest) =
              c :: (t ++ (serializeElems xs ++ ']' :: rest)) := by
            rw [hct]
            rfl
          rw [harg, skipWs_cons _ hws]
          have hbound : (serializeV x).length + (serializeElems xs).length + 1 < f := by
            have hlen : (serializeV (.arr (x :: xs))).length =
                (serializeV x).length + (serializeElems xs).length + 2 := by
              show ('[' :: (serializeV x ++ serializeElems xs ++ [']'])).length = _
              simp only [List.length_cons, List.length_append, List.length_nil,
                List.length_singleton]
            omega
          split
          · rename_i r heq
            injection heq with hc _
            exact absurd hc hnb
          · rw [← harg, ih.2.2 x xs rest hbound]
      | obj ms =>
        cases ms with
        | nil => rfl
        | cons m ms =>
          obtain ⟨k, v⟩ := m
          have hser : serializeV (.obj ((k, v) :: ms)) ++ rest =
              '\x7b' :: (serializeMember (k, v) ++ (serializeMembers ms ++ '\x7d' :: rest)) := by
            show '\x7b' :: (serializeMember (k, v) ++ serializeMembers ms ++ ['\x7d']) ++ rest = _
            simp [List.append_assoc]
          rw [hser]
          rw [show parseValue (f + 1)
              ('\x7b' :: (serializeMember (k, v) ++ (serializeMembers ms ++ '\x7d' :: rest))) =
              (match skipWs (serializeMember (k, v) ++ (serializeMembers ms ++ '\x7d' :: rest)) with
                | '\x7d' :: r => some (.obj [], r)
                | r2 =>
                  (match parseMemberList f r2 with
                    | some (kvs, r) => some (.obj kvs, r)
                    | none => none)) from rfl]
          have harg : serializeMember (k, v) ++ (serializeMembers ms ++ '\x7d' :: rest) =
              '"' :: (escapeList k.data ++ ('"' :: ':' :: serializeV v) ++
                (serializeMembers ms ++ '\x7d' :: rest)) := rfl
          rw [harg, skipWs_cons _ (by decide)]
          have hbound : (serializeMember (k, v)).length + (serializeMembers ms).length + 1 < f := by
            have hlen : (serializeV (.obj ((k, v) :: ms))).length =
                (serializeMember (k, v)).length + (serializeMembers ms).length + 2 := by
              show ('\x7b' :: (serializeMember (k, v) ++ serializeMembers ms ++ ['\x7d'])).length = _
              simp only [List.length_cons, List.length_append, List.length_nil,
                List.length_singleton]
            omega
          split
          · rename_i r heq
            injection heq with hc _
            exact absurd hc (by decide)
          · rw [← harg, ih.2.1 (k, v) ms rest hbound]
    · intro m ms rest hb
      obtain ⟨k, v⟩ := m
      have hlm : (serializeMember (k, v)).length =
          (escapeList k.data).length + (serializeV v).length + 3 := by
        show ('"' :: (escapeList k.data ++ ('"' :: ':' :: serializeV v))).length = _
        simp only [List.length_cons, List.length_append]
        omega
      have h1 : serializeMember (k, v) ++ (serializeMembers ms ++ '\x7d' :: rest) =
          '"' :: (escapeList k.data ++
            ('"' :: ':' :: (serializeV v ++ (serializeMembers ms ++ '\x7d' :: rest)))) := by
        show '"' :: (escapeList k.data ++ ('"' :: ':' :: serializeV v)) ++
            (serializeMembers ms ++ '\x7d' :: rest) = _
        simp [List.append_assoc]
      rw [h1]
      rw [show parseMemberList (f + 1) ('"' :: (escapeList k.data ++
          ('"' :: ':' :: (serializeV v ++ (serializeMembers ms ++ '\x7d' :: rest))))) =
          (match parseStringBody f (escapeList k.data ++
              ('"' :: ':' :: (serializeV v ++ (serializeMembers ms ++ '\x7d' :: rest)))) with
            | some (kcs, r1) =>
              (match skipWs r1 with
                | ':' :: r2 =>
                  (match parseValue f r2 with
                    | some (v2, r3) =>
                      (match skipWs r3 with
                        | ',' :: r4 =>
                          (match parseMemberList f r4 with
                            | some (kvs, r5) => some ((String.mk kcs, v2) :: kvs, r5)
                            | none => none)
                        | '\x7d' :: r4 => some ([(String.mk kcs, v2)], r4)
                        | _ => none)
                    | none => none)
                | _ => none)
            | none => none) from rfl]
      rw [parseStringBody_escape k.data _ f (by omega)]
      show (match parseValue f (serializeV v ++ (serializeMembers ms ++ '\x7d' :: rest)) with
        | some (v2, r3) =>
          (match skipWs r3 with
            | ',' :: r4 =>
              (match parseMemberList f r4 with
                | some (kvs, r5) => some ((k, v2) :: kvs, r5)
                | none => none)
            | '\x7d' :: r4 => some ([(k, v2)], r4)
            | _ => none)
        | none => none) = some ((k, v) :: ms, rest)
      rw [ih.1 v _ (by omega) (nonDigitStart_members ms rest)]
      cases ms with
      | nil => rfl
      | cons m2 ms2 =>
        have hlms : (serializeMembers (m2 :: ms2)).length =
            (serializeMember m2).length + (serializeMembers ms2).length + 1 := by
          show (',' :: (serializeMember m2 ++ serializeMembers ms2)).length = _
          simp only [List.length_cons, List.length_append]
        rw [show serializeMembers (m2 :: ms2) ++ '\x7d' :: rest =
            ',' :: (serializeMember m2 ++ (serializeMembers ms2 ++ '\x7d' :: rest)) from by
          show ',' :: (serializeMember m2 ++ serializeMembers ms2) ++ '\x7d' :: rest = _
          simp [List.append_assoc]]
        show (match parseMemberList f
            (serializeMember m2 ++ (serializeMembers ms2 ++ '\x7d' :: rest)) with
          | some (kvs, r5) => some ((k, v) :: kvs, r5)
          | none => none) = some ((k, v) :: m2 :: ms2, rest)
        rw [ih.2.1 m2 ms2 rest (by omega)]
    · intro x xs rest hb
      have hpx : 1 ≤ (serializeV x).length := serializeV_length_pos x
      rw [show parseElemList (f + 1) (serializeV x ++ (serializeElems xs ++ ']' :: rest)) =
          (match parseValue f (serializeV x ++ (serializeElems xs ++ ']' :: rest)) with
            | some (v, r1) =>
              (match skipWs r1 with
                | ',' :: r2 =>
                  (match parseElemList f r2 with
                    | some (xs2, r3) => some (v :: xs2, r3)
                    | none => none)
                | ']' :: r2 => some ([v], r2)
                | _ => none)
            | none => none) from rfl]
      rw [ih.1 x _ (by omega) (nonDigitStart_elems xs rest)]
      cases xs with
      | nil => rfl
      | cons x2 xs2 =>
        have hlxs : (serializeElems (x2 :: xs2)).length =
            (serializeV x2).length + (serializeElems xs2).length + 1 := by
          show (',' :: (serializeV x2 ++ serializeElems xs2)).length = _
          simp only [List.length_cons, List.length_append]
        rw [show serializeElems (x2 :: xs2) ++ ']' :: rest =
            ',' :: (serializeV x2 ++ (serializeElems xs2 ++ ']' :: rest)) from by
          show ',' :: (serializeV x2 ++ serializeElems xs2) ++ ']' :: rest = _
          simp [List.append_assoc]]
        show (match parseElemList f (serializeV x2 ++ (serializeElems xs2 ++ ']' :: rest)) with
          | some (xs3, r3) => some (x :: xs3, r3)
          | none => none) = some (x :: x2 :: xs2, rest)
        rw [ih.2.2 x2 xs2 rest (by omega)]

/-- Parsing a complete serialized JSON document recovers the value. -/
theorem parseJSON_serializeV (v : JSONValue) :
    parseJSON (String.mk (serializeV v)) = some v := by
  have h := (parse_serialize ((serializeV v).length + 1)).1 v [] (by omega) rfl
  rw [List.append_nil] at h
  unfold parseJSON
  rw [show (String.mk (serializeV v)).data = serializeV v from rfl, h]
  rfl

/-- Model of a raw SQS message as the provider receives it: per-delivery
receipt handle, system attributes, message attributes (their string values),
and the raw body.  The AWS SDK's pointer fields are modelled as plain
strings: the provider dereferences them unconditionally. -/
structure Message where
  receiptHandle : String
  attributes : List (String × String)
  messageAttributes : List (String × String)
  body : String

/-- Decoded domain event (sqs.Event): name and payload plus the queue
metadata used for deleting and requeueing.  The back-pointer to the
provider is not part of the value model. -/
structure Event where
  name : String
  data : List (String × JSONValue)
  receiptHandle : String
  deduplicationID : Option String
  retryCount : Int

/-- Go map lookup over an association list (keys are unique in Go maps). -/
def alookup {α : Type} : List (String × α) → String → Option α
  | [], _ => none
  | (k, v) :: rest, key => if k = key then some v else alookup rest key

/-- JSON object field lookup with Go's duplicate-key semantics: the last
occurrence of a key wins. -/
def lookupLast : List (String × JSONValue) → String → Option JSONValue
  | [], _ => none
  | (k, v) :: rest, key =>
    match lookupLast rest key with
    | some r => some r
    | none => if k = key then some v else none

/-- Go json.Unmarshal of a raw body into the provider's encodedMessage
struct (a single field, Message string): the document must be a JSON object
(null leaves the zero value); the field must be a string when present;
an absent or null field leaves the empty string. -/
def unmarshalEncodedMessage (s : String) : Option String :=
  match parseJSON s with
  | none => none
  | some .null => some ("")
  | some (.obj kvs) =>
    match lookupLast kvs ("Message") with
    | none => some ("")
    | some .null => some ("")
    | some (.str m) => some m
    | some _ => none
  | some _ => none

/-- The provider's encodedEvent struct: name and data fields of the inner
JSON document. -/
structure EncodedEvent where
  name : String
  data : List (String × JSONValue)

/-- Unmarshal the name field of the inner document: absent or null leaves
the zero value, a non-string value is an unmarshalling error. -/
def extractName : Option JSONValue → Option String
  | none => some ("")
  | some .null => some ("")
  | some (.str s) => some s
  | some _ => none

/-- Unmarshal the data field of the inner document: absent or null leaves
the nil map, a non-object value is an unmarshalling error. -/
def extractData : Option JSONValue → Option (List (String × JSONValue))
  | none => some []
  | some .null => some []
  | some (.obj kvs) => some kvs
  | some _ => none

/-- Go json.Unmarshal of the inner document into encodedEvent. -/
def unmarshalEncodedEvent (s : String) : Option EncodedEvent :=
  match parseJSON s with
  | none => none
  | some .null => some ⟨"", []⟩
  | some (.obj kvs) =>
    match extractName (lookupLast kvs ("name")), extractData (lookupLast kvs ("data")) with
    | some nm, some d => some ⟨nm, d⟩
    | _, _ => none
  | some _ => none

/-- Go strconv.Atoi: an optional sign followed by at least one digit and
nothing else (the 64-bit range check is outside the model). -/
def atoiDigits (l : List Char) : Option Nat :=
  if l.isEmpty then none
  else if l.all isDigitChar then some (digitsVal l) else none

/-- Integer parse of a string, Go's strconv.Atoi. -/
def atoi (s : String) : Option Int :=
  match s.data with
  | '+' :: ds =>
    match atoiDigits ds with
    | some k => some ((k : Nat) : Int)
    | none => none
  | '-' :: ds =>
    match atoiDigits ds with
    | some k => some (-((k : Nat) : Int))
    | none => none
  | ds =>
    match atoiDigits ds with
    | some k => some ((k : Nat) : Int)
    | none => none

/-- Integer to string, Go's strconv.Itoa. -/
def intToString (n : Int) : String := String.mk (intRepr n)

/-- DecodeEvent (sqs/event.go): extract the receipt handle and the
DeduplicationID attribute, parse the RetryCount message attribute (absent
means zero, an unparsable value is an error), then double-decode the body:
the outer envelope first, the inner event document second. -/
def DecodeEvent (m : Message) : Option Event :=
  match (match alookup m.messageAttributes ("RetryCount") with
    | none => some (0 : Int)
    | some s => atoi s) with
  | none => none
  | some retryCount =>
    match unmarshalEncodedMessage m.body with
    | none => none
    | some inner =>
      match unmarshalEncodedEvent inner with
      | none => none
      | some evt =>
        some { name := evt.name, data := evt.data, receiptHandle := m.receiptHandle,
               deduplicationID := alookup m.attributes ("DeduplicationID"),
               retryCount := retryCount }

/-- Marshal the inner event document from a name and a data map. -/
def marshalEncodedEvent (name : String) (data : List (String × JSONValue)) : String :=
  String.mk (serializeV (.obj [(("name" : String), .str name), (("data" : String), .obj data)]))

/-- EncodeEvent (sqs/event.go): marshal the inner name/data document to a
string and wrap it as the Message field of the outer envelope. -/
def Event.EncodeEvent (e : Event) : String :=
  String.mk (serializeV (.obj [(("Message" : String), .str (marshalEncodedEvent e.name e.data))]))

/-- Two's-complement wraparound of a 64-bit signed integer, Go's int
addition semantics. -/
def wrapInt64 (n : Int) : Int := (n + 2 ^ 63) % 2 ^ 64 - 2 ^ 63

/-- DelaySeconds (sqs/event.go): int64(math.Min(math.Pow(2,
float64(retryCount+1)), 15*60)).  The increment retryCount+1 is a 64-bit
addition and wraps, modelled by wrapInt64.  At every 64-bit input the
float64 computation is integer-exact and equals this integer form: for a
wrapped exponent w of at least 1024 Pow overflows to positive infinity and
Min picks 900, which agrees with min(2^w, 900) since 2^w exceeds 900
already from w = 10; for w between 10 and 1023 Pow is the exact power and
exceeds 900; for w between 0 and 9 Pow is the exact power below 900; and
for negative w Pow yields a value below one (or underflows to zero) whose
int64 truncation is 0. -/
def Event.DelaySeconds (e : Event) : Int :=
  if wrapInt64 (e.retryCount + 1) < 0 then 0
  else min (2 ^ (wrapInt64 (e.retryCount + 1)).toNat) (15 * 60)

/-- RetryCount accessor (sqs/event.go). -/
def Event.RetryCount (e : Event) : Int := e.retryCount

/-- Name accessor (sqs/event.go). -/
def Event.Name (e : Event) : String := e.name

/-- Data accessor (sqs/event.go). -/
def Event.Data (e : Event) : List (String × JSONValue) := e.data

/-- ReceiptHandle accessor (sqs/event.go). -/
def Event.ReceiptHandle (e : Event) : String := e.receiptHandle

/-- DeduplicationID accessor (sqs/event.go). -/
def Event.DeduplicationID (e : Event) : Option String := e.deduplicationID

/-- Atoi accepts the digit strings Itoa produces and recovers the value. -/
theorem atoiDigits_natRepr (k : Nat) : atoiDigits (natRepr k) = some k := by
  obtain ⟨⟨c, t, hct⟩, hdig, hval⟩ := natChars_spec (k + 1) k (by omega)
  have hct' : natRepr k = c :: t := hct
  have hdig' : ∀ x ∈ natRepr k, isDigitChar x = true := hdig
  have hval' : digitsVal (natRepr k) = k := hval
  have hne : (natRepr k).isEmpty = false := by
    rw [hct']
    rfl
  have hall : (natRepr k).all isDigitChar = true := List.all_eq_true.mpr hdig'
  simp only [atoiDigits, hne, hall, hval', Bool.false_eq_true, if_false, if_true]

/-- Round trip of the RetryCount attribute: the string Requeue writes with
Itoa parses back with Atoi to the same integer. -/
theorem atoi_intToString (n : Int) : atoi (intToString n) = some n := by
  by_cases hneg : n < 0
  · have h1 : intRepr n = '-' :: natRepr (-n).toNat := by
      unfold intRepr
      rw [if_pos hneg]
    have h2 : (intToString n).data = '-' :: natRepr (-n).toNat := by
      rw [show (intToString n).data = intRepr n from rfl, h1]
    unfold atoi
    rw [h2]
    show (match atoiDigits (natRepr (-n).toNat) with
      | some k => some (-((k : Nat) : Int))
      | none => none) = some n
    rw [atoiDigits_natRepr]
    show some (-(((-n).toNat : Nat) : Int)) = some n
    congr 1
    omega
  · have h1 : intRepr n = natRepr n.toNat := by
      unfold intRepr
      rw [if_neg hneg]
    obtain ⟨⟨c, t, hct⟩, hdig, _⟩ := natChars_spec (n.toNat + 1) n.toNat (by omega)
    have hct' : natRepr n.toNat = c :: t := hct
    have hcd : isDigitChar c = true := by
      apply hdig
      rw [show natChars (n.toNat + 1) n.toNat = natRepr n.toNat from rfl, hct']
      exact List.mem_cons_self c t
    have h2 : (intToString n).data = c :: t := by
      rw [show (intToString n).data = intRepr n from rfl, h1, hct']
    unfold atoi
    rw [h2]
    split
    · rename_i heq
      injection heq with hc _
      rw [hc] at hcd
      exact absurd hcd (by decide)
    · rename_i heq
      injection heq with hc _
      rw [hc] at hcd
      exact absurd hcd (by decide)
    · rw [← hct', atoiDigits_natRepr]
      show some ((n.toNat : Nat) : Int) = some n
      congr 1
      omega

/-- The listener's registered-handler table (listener.go): event name to the
handlers registered for it in registration order (a Go map of slices, so
keys are unique and entry count is the number of distinct names). -/
structure Listener where
  handlers : List (String × List (Event → Option String))

/-- NewListener starts with no registered handlers. -/
def newListener : Listener := ⟨[]⟩

/-- RegisterHandler (listener.go): append the handler to the slice for the
name, creating the entry on first registration. -/
def addHandler : List (String × List (Event → Option String)) → String →
    (Event → Option String) → List (String × List (Event → Option String))
  | [], n, fn => [(n, [fn])]
  | (k, fs) :: rest, n, fn =>
    if k = n then (k, fs ++ [fn]) :: rest else (k, fs) :: addHandler rest n fn

/-- RegisterHandler on the listener value. -/
def Listener.RegisterHandler (l : Listener) (n : String) (fn : Event → Option String) :
    Listener :=
  ⟨addHandler l.handlers n fn⟩

/-- Run a handler slice in order, the first failure short-circuiting the
rest.  The first component counts how many handlers were invoked
(instrumentation for the ordering claims); the second is the returned
error. -/
def runHandlers : List (Event → Option String) → Event → Nat × Option String
  | [], _ => (0, none)
  | fn :: rest, e =>
    match fn e with
    | some err => (1, some err)
    | none =>
      let r := runHandlers rest e
      (r.1 + 1, r.2)

/-- handleEvent (listener.go): look up the handlers registered for the
event's name; a missing entry is success without invoking anything;
otherwise run the slice in registration order. -/
def Listener.handleEvent (l : Listener) (e : Event) : Nat × Option String :=
  match alookup l.handlers e.Name with
  | none => (0, none)
  | some hs => runHandlers hs e

/-- Observable effects of one worker iteration on one received event
(listener.go, worker): how often the worker itself called Provider.Requeue
and Provider.Delete, the errors it handed to the registered error callback,
and whether it signalled workerDone and returned. -/
structure WorkerEffects where
  requeues : Nat
  deletes : Nat
  reported : List String
  signaledDone : Bool
  exits : Bool

/-- One worker iteration (listener.go, worker): dispatch the event; on a
handler error, requeue when the event's retryCount is at most the
provider's MaximumRetryCount and otherwise hand the terminal
retries-exceeded error to the error callback, then signal workerDone and
return; on success delete the event and keep looping. -/
def workerStep (maximumRetryCount : Int) (l : Listener) (e : Event) : WorkerEffects :=
  match (l.handleEvent e).2 with
  | some _ =>
    if e.RetryCount ≤ maximumRetryCount then
      { requeues := 1, deletes := 0, reported := [], signaledDone := true, exits := true }
    else
      { requeues := 0, deletes := 0,
        reported := [("Event exceeded maximum retry count: ") ++ e.EncodeEvent ++ ("\n")],
        signaledDone := true, exits := true }
  | none =>
    { requeues := 0, deletes := 1, reported := [], signaledDone := false, exits := false }

/-- Remote queue operations the provider issues (sqs/provider.go). -/
inductive RemoteOp where
  | deleteMessage : String → RemoteOp
  | sendMessage : Int → String → Option String → String → RemoteOp

/-- Delete (sqs/provider.go): delete the delivery named by the event's
receipt handle; a remote failure is published on the error stream, never
returned to the caller. -/
def deleteRun (remote : RemoteOp → Option String) (e : Event) :
    List RemoteOp × List String :=
  let op := RemoteOp.deleteMessage e.ReceiptHandle
  ([op], (remote op).toList)

/-- Requeue (sqs/provider.go): first Delete the current delivery, then send
exactly one new message whose delay is the event's DelaySeconds, whose
RetryCount attribute is Itoa(RetryCount+1), whose deduplication id is the
event's DeduplicationID (left unset when absent), and whose body is
EncodeEvent; remote failures of either call are published on the error
stream, never returned. -/
def requeueRun (remote : RemoteOp → Option String) (e : Event) :
    List RemoteOp × List String :=
  let del := deleteRun remote e
  let send := RemoteOp.sendMessage e.DelaySeconds (intToString (e.RetryCount + 1))
    e.DeduplicationID e.EncodeEvent
  (del.1 ++ [send], del.2 ++ (remote send).toList)

/-- One pass over a received batch, the inner loop of Start
(sqs/provider.go): each message is decoded in order; a decode failure
publishes that message's error on the error stream and continues with the
next message; a success publishes the event on the event stream. -/
def processBatch : List Message → List Message × List Event
  | [] => ([], [])
  | m :: rest =>
    match DecodeEvent m with
    | none =>
      let r := processBatch rest
      (m :: r.1, r.2)
    | some e =>
      let r := processBatch rest
      (r.1, e :: r.2)

/-- Outcome of one iteration of the polling loop: either the goroutine
returned, or it continues after publishing an optional transport error, the
decode failures of the batch, and the decoded events. -/
inductive PollOutcome where
  | exited : PollOutcome
  | continued : Option String → List Message → List Event → PollOutcome

/-- One iteration of Start's polling loop (sqs/provider.go): the loop
returns only via the done branch; a pending error-stream value is logged
and the loop continues; otherwise the loop receives — a transport failure
publishes the error and continues polling, and a batch is decoded message
by message. -/
def pollIteration (doneSignal : Bool) (pendingErr : Option String)
    (recv : Except String (List Message)) : PollOutcome :=
  if doneSignal then .exited
  else
    match pendingErr with
    | some _ => .continued none [] []
    | none =>
      match recv with
      | .error err => .continued (some err) [] []
      | .ok msgs =>
        let r := processBatch msgs
        .continued none r.1 r.2

/-- State of Listen's worker pool (listener.go): the shared unsynchronized
workers counter, the number of currently running workers, goroutines
spawned but not yet past their counter increment, buffered workerDone
signals, deferred counter decrements of exited workers not yet executed,
and whether the supervisor has taken the halt branch. -/
structure PoolState where
  counter : Int
  live : Nat
  pendingStart : Nat
  pendingDone : Nat
  pendingDecr : Nat
  halting : Bool
deriving DecidableEq

/-- Interleaved small-step semantics of Listen's pool (listener.go): a
spawned goroutine increments the counter and runs; an exiting worker sends
workerDone before its deferred decrement runs, and the decrement is a
separate later step; the supervisor, while not halting, consumes one done
signal and spawns a replacement exactly when the counter value it reads is
below capacity; the halt signal ends supervision. -/
inductive PoolStep (capacity : Nat) : PoolState → PoolState → Prop where
  | startWorker : ∀ s, 0 < s.pendingStart →
      PoolStep capacity s
        { s with pendingStart := s.pendingStart - 1, counter := s.counter + 1,
                 live := s.live + 1 }
  | workerExit : ∀ s, 0 < s.live →
      PoolStep capacity s
        { s with live := s.live - 1, pendingDone := s.pendingDone + 1,
                 pendingDecr := s.pendingDecr + 1 }
  | deferDecr : ∀ s, 0 < s.pendingDecr →
      PoolStep capacity s
        { s with pendingDecr := s.pendingDecr - 1, counter := s.counter - 1 }
  | superviseSpawn : ∀ s, s.halting = false → 0 < s.pendingDone → s.counter < (capacity : Int) →
      PoolStep capacity s
        { s with pendingDone := s.pendingDone - 1, pendingStart := s.pendingStart + 1 }
  | superviseSkip : ∀ s, s.halting = false → 0 < s.pendingDone → ¬s.counter < (capacity : Int) →
      PoolStep capacity s { s with pendingDone := s.pendingDone - 1 }
  | haltSignal : ∀ s, s.halting = false →
      PoolStep capacity s { s with halting := true }

/-- Reachability in the pool semantics. -/
def PoolReachable (capacity : Nat) : PoolState → PoolState → Prop :=
  Relation.ReflTransGen (PoolStep capacity)

/-- Listen's pool capacity (listener.go): four times the number of entries
of the handlers map, that is four times the number of distinct registered
event names. -/
def listenCapacity (l : Listener) : Nat := l.handlers.length * 4

/-- Listen's initial pool state: the launch loop spawns exactly capacity
many goroutines before supervision begins. -/
def listenInit (capacity : Nat) : PoolState :=
  { counter := 0, live := 0, pendingStart := capacity, pendingDone := 0, pendingDecr := 0,
    halting := false }

/-- The pool potential: live workers plus spawns not yet run plus done
signals not yet consumed.  No step increases it. -/
def poolPotential (s : PoolState) : Nat := s.live + s.pendingStart + s.pendingDone

/-- No single pool step increases the potential. -/
theorem poolStep_potential {capacity : Nat} {s t : PoolState} (h : PoolStep capacity s t) :
    poolPotential t ≤ poolPotential s := by
  cases h <;> simp [poolPotential] <;> omega

/-- The potential never increases along any execution. -/
theorem poolReachable_potential {capacity : Nat} {s t : PoolState}
    (h : PoolReachable capacity s t) : poolPotential t ≤ poolPotential s := by
  induction h with
  | refl => exact Nat.le_refl _
  | tail _ hstep ih => exact Nat.le_trans (poolStep_potential hstep) ih

/-- The shared counter always equals the live workers plus the pending
deferred decrements. -/
theorem poolReachable_counter {capacity : Nat} {s t : PoolState}
    (hc : s.counter = (s.live : Int) + (s.pendingDecr : Int))
    (h : PoolReachable capacity s t) :
    t.counter = (t.live : Int) + (t.pendingDecr : Int) := by
  induction h with
  | refl => exact hc
  | tail _ hstep ih =>
    cases hstep <;> simp_all <;> omega

/-- The live worker count never exceeds the launched capacity. -/
theorem pool_live_le_capacity {capacity : Nat} {t : PoolState}
    (h : PoolReachable capacity (listenInit capacity) t) : t.live ≤ capacity := by
  have hpot := poolReachable_potential h
  have hinit : poolPotential (listenInit capacity) = capacity := by
    simp [poolPotential, listenInit]
  rw [hinit] at hpot
  have : t.live ≤ poolPotential t := by
    simp [poolPotential]
    omega
  omega

/-- The fully manned pool: capacity live workers, a settled counter, no
pending activity. -/
def fullPool (capacity : Nat) : PoolState :=
  { counter := (capacity : Int), live := capacity, pendingStart := 0, pendingDone := 0,
    pendingDecr := 0, halting := false }

/-- On the schedule where the exiting worker's deferred decrement runs
before the supervisor reads the counter, a single worker exit from the full
pool is healed back to full capacity. -/
theorem pool_restore_good_schedule (capacity : Nat) (hpos : 0 < capacity) :
    PoolStep capacity (fullPool capacity)
      { counter := (capacity : Int), live := capacity - 1, pendingStart := 0,
        pendingDone := 1, pendingDecr := 1, halting := false } ∧
    PoolReachable capacity
      { counter := (capacity : Int), live := capacity - 1, pendingStart := 0,
        pendingDone := 1, pendingDecr := 1, halting := false }
      (fullPool capacity) := by
  constructor
  · exact PoolStep.workerExit (fullPool capacity) hpos
  · have h1 : PoolStep capacity
        { counter := (capacity : Int), live := capacity - 1, pendingStart := 0,
          pendingDone := 1, pendingDecr := 1, halting := false }
        { counter := (capacity : Int) - 1, live := capacity - 1, pendingStart := 0,
          pendingDone := 1, pendingDecr := 0, halting := false } :=
      PoolStep.deferDecr _ (by simp)
    have h2 : PoolStep capacity
        { counter := (capacity : Int) - 1, live := capacity - 1, pendingStart := 0,
          pendingDone := 1, pendingDecr := 0, halting := false }
        { counter := (capacity : Int) - 1, live := capacity - 1, pendingStart := 1,
          pendingDone := 0, pendingDecr := 0, halting := false } :=
      PoolStep.superviseSpawn _ rfl (by simp) (by simp)
    have h3 : PoolStep capacity
        { counter := (capacity : Int) - 1, live := capacity - 1, pendingStart := 1,
          pendingDone := 0, pendingDecr := 0, halting := false }
        (fullPool capacity) := by
      have heq : fullPool capacity =
          { counter := ((capacity : Int) - 1) + 1, live := (capacity - 1) + 1,
            pendingStart := 0, pendingDone := 0, pendingDecr := 0, halting := false } := by
        simp only [fullPool, PoolState.mk.injEq]
        refine ⟨by omega, by omega, trivial, trivial, trivial, trivial⟩
      rw [heq]
      exact PoolStep.startWorker _ (by simp)
    exact (Relation.ReflTransGen.single h1).trans
      ((Relation.ReflTransGen.single h2).trans (Relation.ReflTransGen.single h3))

/-- Phase of the polling goroutine: at its select, mid-batch with the
remaining messages still to publish, or returned. -/
inductive LoopPhase where
  | atSelect : LoopPhase
  | sending : List Message → LoopPhase
  | returned : LoopPhase

/-- Joint state of the polling goroutine and a caller of Stop
(sqs/provider.go): loop phase, whether each stream has been closed, the
pending done signal, whether Stop has returned, and counters of sends the
loop performed after Stop returned and sends on an already closed
stream. -/
structure ProviderState where
  phase : LoopPhase
  eventsClosed : Bool
  errorsClosed : Bool
  doneSignal : Bool
  stopReturned : Bool
  sendsAfterStop : Nat
  sendsOnClosed : Nat

/-- Initial state: the loop is at its select, nothing closed, Stop not yet
called. -/
def providerInit : ProviderState :=
  { phase := .atSelect, eventsClosed := false, errorsClosed := false, doneSignal := false,
    stopReturned := false, sendsAfterStop := 0, sendsOnClosed := 0 }

/-- Interleaved steps of the polling goroutine and Stop (sqs/provider.go).
Stop closes the events stream, closes the errors stream and then buffers
the done signal.  At the select the loop returns on a pending done signal,
may consume a value from the (closed) errors stream and loop again, and
takes the default receive branch only when neither is ready.  While
mid-batch the loop publishes each message — the decoded event on the events
stream, a decode failure on the errors stream — regardless of Stop having
run meanwhile; such a send is recorded when it happens after Stop returned,
and separately when its target stream is already closed (in Go the latter
panics). -/
inductive ProviderStep : ProviderState → ProviderState → Prop where
  | stopCall : ∀ s, s.stopReturned = false →
      ProviderStep s
        { s with eventsClosed := true, errorsClosed := true, doneSignal := true,
                 stopReturned := true }
  | selectDone : ∀ s, s.phase = .atSelect → s.doneSignal = true →
      ProviderStep s { s with phase := .returned, doneSignal := false }
  | selectErrors : ∀ s, s.phase = .atSelect → s.errorsClosed = true → ProviderStep s s
  | selectReceive : ∀ s (msgs : List Message), s.phase = .atSelect → s.doneSignal = false →
      s.errorsClosed = false →
      ProviderStep s { s with phase := .sending msgs }
  | sendNext : ∀ s m rest, s.phase = .sending (m :: rest) →
      ProviderStep s
        { s with phase := .sending rest,
                 sendsAfterStop := s.sendsAfterStop + (if s.stopReturned then 1 else 0),
                 sendsOnClosed := s.sendsOnClosed +
                   (if (match DecodeEvent m with
                        | some _ => s.eventsClosed
                        | none => s.errorsClosed) then 1 else 0) }
  | sendingDone : ∀ s, s.phase = .sending [] → ProviderStep s { s with phase := .atSelect }

/-- Reachability in the shutdown semantics. -/
def ProviderReachable : ProviderState → ProviderState → Prop :=
  Relation.ReflTransGen ProviderStep

/-- Unmarshalling the inner document Requeue's encoder produced recovers
exactly the name and the data map. -/
theorem unmarshal_marshal (name : String) (data : List (String × JSONValue)) :
    unmarshalEncodedEvent (marshalEncodedEvent name data) = some ⟨name, data⟩ := by
  unfold unmarshalEncodedEvent marshalEncodedEvent
  rw [parseJSON_serializeV]
  rfl

/-- Unmarshalling the outer envelope EncodeEvent produced recovers the
marshalled inner document. -/
theorem unmarshalMessage_encode (e : Event) :
    unmarshalEncodedMessage e.EncodeEvent = some (marshalEncodedEvent e.name e.data) := by
  unfold unmarshalEncodedMessage Event.EncodeEvent
  rw [parseJSON_serializeV]
  rfl

/-- The batch loop publishes exactly the decode failures on the error
stream and exactly the decoded events on the event stream, both in message
order. -/
theorem processBatch_spec (msgs : List Message) :
    processBatch msgs =
      (msgs.filter (fun m => (DecodeEvent m).isNone), msgs.filterMap DecodeEvent) := by
  induction msgs with
  | nil => rfl
  | cons m rest ih =>
    cases hd : DecodeEvent m with
    | none => simp [processBatch, hd, ih, List.filter, List.filterMap]
    | some e => simp [processBatch, hd, ih, List.filter, List.filterMap]

/-- Registering a handler appends it to the slice already registered for
that name. -/
theorem alookup_addHandler (hs : List (String × List (Event → Option String)))
    (n : String) (fn : Event → Option String) :
    alookup (addHandler hs n fn) n = some (((alookup hs n).getD []) ++ [fn]) := by
  induction hs with
  | nil => simp [addHandler, alookup]
  | cons p rest ih =>
    obtain ⟨k, fs⟩ := p
    by_cases hk : k = n
    · subst hk
      simp [addHandler, alookup]
    · simp [addHandler, alookup, hk, ih]

/-- Registering a handler leaves the other names' slices unchanged. -/
theorem alookup_addHandler_ne (hs : List (String × List (Event → Option String)))
    (n n2 : String) (fn : Event → Option String) (hne : n2 ≠ n) :
    alookup (addHandler hs n fn) n2 = alookup hs n2 := by
  have hnn : ¬n = n2 := fun h => hne h.symm
  induction hs with
  | nil =>
    simp only [addHandler, alookup]
    rw [if_neg hnn]
  | cons p rest ih =>
    obtain ⟨k, fs⟩ := p
    by_cases hk : k = n
    · subst hk
      simp only [addHandler, if_pos rfl, alookup]
      rw [if_neg hnn, if_neg hnn]
    · simp only [addHandler, if_neg hk, alookup]
      by_cases hk2 : k = n2
      · rw [if_pos hk2, if_pos hk2]
      · rw [if_neg hk2, if_neg hk2, ih]

/-- Registering a handler adds a map entry exactly when the name is new. -/
theorem addHandler_length (hs : List (String × List (Event → Option String)))
    (n : String) (fn : Event → Option String) :
    (addHandler hs n fn).length =
      if (alookup hs n).isSome then hs.length else hs.length + 1 := by
  induction hs with
  | nil => simp [addHandler, alookup]
  | cons p rest ih =>
    obtain ⟨k, fs⟩ := p
    by_cases hk : k = n
    · subst hk
      simp [addHandler, alookup]
    · simp only [addHandler, if_neg hk, alookup, List.length_cons, ih]
      by_cases h2 : (alookup rest n).isSome = true <;> simp [h2]

/-- Handlers before the first failure all run, the failing handler is
invoked, and the handlers after it are skipped: the invocation count is the
failing handler's position plus one. -/
theorem runHandlers_short_circuit (e : Event) (err : String) :
    ∀ (pre : List (Event → Option String)) (fn : Event → Option String)
      (post : List (Event → Option String)),
      (∀ g ∈ pre, g e = none) → fn e = some err →
      runHandlers (pre ++ fn :: post) e = (pre.length + 1, some err) := by
  intro pre
  induction pre with
  | nil =>
    intro fn post _ hf
    simp [runHandlers, hf]
  | cons g pre ih =>
    intro fn post hpre hf
    have hg : g e = none := hpre g (by simp)
    have hrest : ∀ g2 ∈ pre, g2 e = none := fun g2 h2 => hpre g2 (by simp [h2])
    simp [runHandlers, hg, ih fn post hrest hf]

/-- When every handler succeeds they are all invoked and dispatch
succeeds. -/
theorem runHandlers_all_ok (e : Event) :
    ∀ hs : List (Event → Option String), (∀ g ∈ hs, g e = none) →
      runHandlers hs e = (hs.length, none) := by
  intro hs
  induction hs with
  | nil => intro _; rfl
  | cons g rest ih =>
    intro h
    have hg : g e = none := h g (by simp)
    have hrest : ∀ g2 ∈ rest, g2 e = none := fun g2 h2 => h g2 (by simp [h2])
    simp [runHandlers, hg, ih hrest]

/-- The specification's literal example body, double-encoded JSON. -/
def exampleBody : String :=
  "\x7b\"Message\":\"\x7b\\\"name\\\":\\\"Domain\\\\\\\\Event\\\",\\\"data\\\":\x7b\\\"occurredOn\\\":\\\"2018-03-08 11:11:11\\\"\x7d\x7d\"\x7d"

/-- A message carrying the literal example body and no attributes. -/
def exampleMessage : Message := ⟨"receipt-1", [], [], exampleBody⟩

/-- The event the literal example body decodes to. -/
def exampleEvent : Event :=
  ⟨"Domain\\Event", [(("occurredOn" : String), .str ("2018-03-08 11:11:11"))],
    "receipt-1", none, 0⟩

/-- The example event at a chosen retry count. -/
def exampleEventRC (rc : Int) : Event :=
  ⟨"Domain\\Event", [(("occurredOn" : String), .str ("2018-03-08 11:11:11"))],
    "receipt-1", none, rc⟩

/-- A message whose body is not valid JSON. -/
def badMessage : Message := ⟨"receipt-0", [], [], "not json"⟩

/-- C1: when a handler fails on an event, the worker requeues exactly once
and deletes nothing if the event's retryCount is at most the provider's
maximum, and otherwise neither requeues nor deletes but hands exactly one
terminal retries-exceeded error to the registered error callback; in both
cases it signals completion on workerDone and exits. -/
theorem C1_worker_failure_policy (maximumRetryCount : Int) (l : Listener) (e : Event)
    (herr : (l.handleEvent e).2 ≠ none) :
    (e.RetryCount ≤ maximumRetryCount →
      workerStep maximumRetryCount l e =
        { requeues := 1, deletes := 0, reported := [], signaledDone := true,
          exits := true }) ∧
    (maximumRetryCount < e.RetryCount →
      workerStep maximumRetryCount l e =
        { requeues := 0, deletes := 0,
          reported := [("Event exceeded maximum retry count: ") ++ e.EncodeEvent ++ ("\n")],
          signaledDone := true, exits := true }) := by
  obtain ⟨err, hsome⟩ := Option.ne_none_iff_exists'.mp herr
  constructor
  · intro hcmp
    unfold workerStep
    rw [hsome]
    show (if e.RetryCount ≤ maximumRetryCount then
        ({ requeues := 1, deletes := 0, reported := [], signaledDone := true,
           exits := true } : WorkerEffects)
      else
        { requeues := 0, deletes := 0,
          reported := [("Event exceeded maximum retry count: ") ++ e.EncodeEvent ++ ("\n")],
          signaledDone := true, exits := true }) = _
    rw [if_pos hcmp]
  · intro hcmp
    unfold workerStep
    rw [hsome]
    show (if e.RetryCount ≤ maximumRetryCount then
        ({ requeues := 1, deletes := 0, reported := [], signaledDone := true,
           exits := true } : WorkerEffects)
      else
        { requeues := 0, deletes := 0,
          reported := [("Event exceeded maximum retry count: ") ++ e.EncodeEvent ++ ("\n")],
          signaledDone := true, exits := true }) = _
    rw [if_neg (by omega)]

/-- A handler that always fails, used to exercise the failure paths. -/
def alwaysFailHandler : Event → Option String := fun _ => some ("handler failed")

/-- A listener with one failing handler registered for the example event's
name. -/
def failingListener : Listener :=
  newListener.RegisterHandler ("Domain\\Event") alwaysFailHandler

theorem C1_worker_failure_policy_witness :
    workerStep 25 failingListener exampleEvent =
      { requeues := 1, deletes := 0, reported := [], signaledDone := true, exits := true } ∧
    workerStep 25 failingListener (exampleEventRC 26) =
      { requeues := 0, deletes := 0,
        reported := [("Event exceeded maximum retry count: ") ++
          (exampleEventRC 26).EncodeEvent ++ ("\n")],
        signaledDone := true, exits := true } :=
  ⟨(C1_worker_failure_policy 25 failingListener exampleEvent (by decide)).1 (by decide),
   (C1_worker_failure_policy 25 failingListener (exampleEventRC 26) (by decide)).2 (by decide)⟩

/-- Wrapping is the identity on the 64-bit range. -/
theorem wrapInt64_eq_self {n : Int} (h1 : -(2 ^ 63) ≤ n) (h2 : n < 2 ^ 63) :
    wrapInt64 n = n := by
  have hp : (2 : Int) ^ 63 = 9223372036854775808 := by norm_num
  have hq : (2 : Int) ^ 64 = 18446744073709551616 := by norm_num
  rw [hp] at h1 h2
  unfold wrapInt64
  rw [hp, hq, Int.emod_eq_of_lt (by omega) (by omega)]
  omega

/-- C3 (amended): for every event whose retryCount is non-negative and
whose increment does not overflow a 64-bit integer (retryCount at most
2^63 - 2), DelaySeconds returns exactly min(2^(retryCount+1), 900),
exponential in the event's own pre-increment retryCount with a 900-second
ceiling; at retryCount = 2^63 - 1, the one remaining non-negative 64-bit
value, the increment wraps to -2^63 and DelaySeconds returns 0; retryCount
5 gives 64 and retryCount 15 gives 900. -/
theorem C3_delay_seconds (e : Event) :
    (0 ≤ e.RetryCount → e.RetryCount ≤ 2 ^ 63 - 2 →
      e.DelaySeconds = min (2 ^ (e.RetryCount + 1).toNat) 900) ∧
    (e.RetryCount = 2 ^ 63 - 1 → e.DelaySeconds = 0) ∧
    (e.RetryCount = 5 → e.DelaySeconds = 64) ∧
    (e.RetryCount = 15 → e.DelaySeconds = 900) := by
  refine ⟨fun h0 hub => ?_, fun hw => ?_, fun h5 => ?_, fun h15 => ?_⟩
  · have h0' : 0 ≤ e.retryCount := h0
    have hub' : e.retryCount ≤ 2 ^ 63 - 2 := hub
    have hp : (2 : Int) ^ 63 = 9223372036854775808 := by norm_num
    rw [hp] at hub'
    have hid : wrapInt64 (e.retryCount + 1) = e.retryCount + 1 := by
      apply wrapInt64_eq_self
      · rw [hp]
        omega
      · rw [hp]
        omega
    unfold Event.DelaySeconds
    rw [hid, if_neg (by omega)]
    rfl
  · have h' : e.retryCount = 2 ^ 63 - 1 := hw
    unfold Event.DelaySeconds
    rw [h']
    decide
  · have h' : e.retryCount = 5 := h5
    unfold Event.DelaySeconds
    rw [h']
    decide
  · have h' : e.retryCount = 15 := h15
    unfold Event.DelaySeconds
    rw [h']
    decide

/-- C3 counterexample: at retryCount = 2^63 - 1 — non-negative, and
reachable since Atoi accepts the attribute value 9223372036854775807 — the
64-bit increment wraps and DelaySeconds returns 0, while the claimed
formula min(2^(retryCount+1), 900) gives 900, refuting the original
universal statement. -/
theorem C3_delay_seconds_counterexample :
    0 ≤ (exampleEventRC (2 ^ 63 - 1)).RetryCount ∧
    (exampleEventRC (2 ^ 63 - 1)).DelaySeconds = 0 ∧
    min (2 ^ ((exampleEventRC (2 ^ 63 - 1)).RetryCount + 1).toNat) (900 : Int) = 900 ∧
    (exampleEventRC (2 ^ 63 - 1)).DelaySeconds ≠
      min (2 ^ ((exampleEventRC (2 ^ 63 - 1)).RetryCount + 1).toNat) (900 : Int) := by
  have hrc : ((exampleEventRC (2 ^ 63 - 1)).RetryCount + 1).toNat = 2 ^ 63 := by decide
  have hds : (exampleEventRC (2 ^ 63 - 1)).DelaySeconds = 0 := by decide
  have hmin : min ((2 : Int) ^ (2 ^ 63 : Nat)) 900 = 900 := by
    apply min_eq_right
    have hlow : (900 : Int) ≤ 2 ^ 10 := by norm_num
    have hmono : ((2 : Int)) ^ (10 : Nat) ≤ 2 ^ (2 ^ 63 : Nat) := by
      apply pow_le_pow_right₀ <;> norm_num
    exact le_trans hlow hmono
  refine ⟨by decide, hds, ?_, ?_⟩
  · rw [hrc]
    exact hmin
  · rw [hrc, hds, hmin]
    decide

theorem C3_delay_seconds_witness :
    (exampleEventRC 0).DelaySeconds = min (2 ^ ((0 : Int) + 1).toNat) 900 ∧
    (exampleEventRC (2 ^ 63 - 1)).DelaySeconds = 0 ∧
    (exampleEventRC 5).DelaySeconds = 64 ∧
    (exampleEventRC 15).DelaySeconds = 900 :=
  ⟨(C3_delay_seconds (exampleEventRC 0)).1 (by decide) (by decide),
   (C3_delay_seconds (exampleEventRC (2 ^ 63 - 1))).2.1 (by decide),
   (C3_delay_seconds (exampleEventRC 5)).2.2.1 (by decide),
   (C3_delay_seconds (exampleEventRC 15)).2.2.2 (by decide)⟩

/-- C5: Requeue first deletes the current delivery by its receipt handle
and then sends exactly one new message whose RetryCount attribute is the
event's retryCount plus one (the attribute string parses back to exactly
retryCount+1), whose deduplication key is the event's when present and
absent otherwise, whose delay is the computed DelaySeconds, and whose body
is the re-encoded event; remote failures of either call are published on
the error stream, never returned. -/
theorem C5_requeue_shape (remote : RemoteOp → Option String) (e : Event) :
    requeueRun remote e =
      ([RemoteOp.deleteMessage e.ReceiptHandle,
        RemoteOp.sendMessage e.DelaySeconds (intToString (e.RetryCount + 1))
          e.DeduplicationID e.EncodeEvent],
       (remote (RemoteOp.deleteMessage e.ReceiptHandle)).toList ++
         (remote (RemoteOp.sendMessage e.DelaySeconds (intToString (e.RetryCount + 1))
           e.DeduplicationID e.EncodeEvent)).toList) ∧
    atoi (intToString (e.RetryCount + 1)) = some (e.RetryCount + 1) :=
  ⟨rfl, atoi_intToString _⟩

/-- C7: the polling loop never exits from a failure: only the done signal
exits it; a transport error is published on the error stream and polling
continues; a batch is decoded message by message, each failure published
and each later well-formed message still decoded and delivered — in
particular a malformed message followed by the literal example message
still delivers the example event. -/
theorem C7_poll_loop_resilience (pendingErr : Option String) (err : String)
    (msgs : List Message) :
    (∀ recv, pollIteration false pendingErr recv ≠ .exited) ∧
    (pollIteration false none (.error err) = .continued (some err) [] []) ∧
    (pollIteration false none (.ok msgs) =
      .continued none (msgs.filter (fun m => (DecodeEvent m).isNone))
        (msgs.filterMap DecodeEvent)) ∧
    (processBatch [badMessage, exampleMessage] = ([badMessage], [exampleEvent])) := by
  refine ⟨?_, rfl, ?_, by rfl⟩
  · intro recv
    cases pendingErr with
    | none =>
      cases recv with
      | error e2 => simp [pollIteration]
      | ok ms => simp [pollIteration]
    | some e2 => simp [pollIteration]
  · show PollOutcome.continued none (processBatch msgs).1 (processBatch msgs).2 = _
    rw [processBatch_spec]

theorem C7_poll_loop_resilience_witness :
    pollIteration false none (.ok [badMessage, exampleMessage]) ≠ .exited ∧
    processBatch [badMessage, exampleMessage] = ([badMessage], [exampleEvent]) :=
  ⟨(C7_poll_loop_resilience none ("e") [badMessage, exampleMessage]).1 _,
   (C7_poll_loop_resilience none ("e") [badMessage, exampleMessage]).2.2.2⟩

/-- C8: handlers registered for a name are kept and invoked in registration
order; a registration appends to the slice for its name; dispatch of an
event with no registered handlers is success without invoking anything, and
the worker then deletes the event and reports no error; the first failing
handler short-circuits the remaining handlers; when all handlers succeed
every one of them is invoked. -/
theorem C8_dispatch_order (l : Listener) (e : Event) (maximumRetryCount : Int) :
    (∀ n fn, alookup (addHandler l.handlers n fn) n =
      some (((alookup l.handlers n).getD []) ++ [fn])) ∧
    (alookup l.handlers e.Name = none →
      l.handleEvent e = (0, none) ∧
      workerStep maximumRetryCount l e =
        { requeues := 0, deletes := 1, reported := [], signaledDone := false,
          exits := false }) ∧
    (∀ pre fn post err, alookup l.handlers e.Name = some (pre ++ fn :: post) →
      (∀ g ∈ pre, g e = none) → fn e = some err →
      l.handleEvent e = (pre.length + 1, some err)) ∧
    (∀ hs, alookup l.handlers e.Name = some hs → (∀ g ∈ hs, g e = none) →
      l.handleEvent e = (hs.length, none)) := by
  refine ⟨fun n fn => alookup_addHandler l.handlers n fn, ?_, ?_, ?_⟩
  · intro hnone
    have h1 : l.handleEvent e = (0, none) := by
      unfold Listener.handleEvent
      rw [hnone]
    refine ⟨h1, ?_⟩
    unfold workerStep
    rw [h1]
  · intro pre fn post err hlk hpre hf
    unfold Listener.handleEvent
    rw [hlk]
    show runHandlers (pre ++ fn :: post) e = _
    rw [runHandlers_short_circuit e err pre fn post hpre hf]
  · intro hs hlk hok
    unfold Listener.handleEvent
    rw [hlk]
    show runHandlers hs e = _
    rw [runHandlers_all_ok e hs hok]

/-- A handler that always succeeds. -/
def alwaysOkHandler : Event → Option String := fun _ => none

/-- Three handlers registered for the example name: success, failure,
success — the third must never run. -/
def threeHandlerListener : Listener :=
  ((newListener.RegisterHandler ("Domain\\Event") alwaysOkHandler).RegisterHandler
    ("Domain\\Event") alwaysFailHandler).RegisterHandler ("Domain\\Event") alwaysOkHandler

/-- Two succeeding handlers registered for the example name. -/
def twoOkListener : Listener :=
  (newListener.RegisterHandler ("Domain\\Event") alwaysOkHandler).RegisterHandler
    ("Domain\\Event") alwaysOkHandler

theorem C8_dispatch_order_witness :
    alookup (addHandler threeHandlerListener.handlers ("Other") alwaysOkHandler) ("Other") =
      some (((alookup threeHandlerListener.handlers ("Other")).getD []) ++ [alwaysOkHandler]) ∧
    (newListener.handleEvent exampleEvent = (0, none) ∧
      workerStep 25 newListener exampleEvent =
        { requeues := 0, deletes := 1, reported := [], signaledDone := false,
          exits := false }) ∧
    threeHandlerListener.handleEvent exampleEvent = (2, some ("handler failed")) ∧
    twoOkListener.handleEvent exampleEvent = (2, none) := by
  refine ⟨(C8_dispatch_order threeHandlerListener exampleEvent 25).1 ("Other") alwaysOkHandler,
    (C8_dispatch_order newListener exampleEvent 25).2.1 rfl, ?_, ?_⟩
  · have h := (C8_dispatch_order threeHandlerListener exampleEvent 25).2.2.1
      [alwaysOkHandler] alwaysFailHandler [alwaysOkHandler] ("handler failed") rfl
      (by
        intro g hg
        rw [List.mem_singleton] at hg
        subst hg
        rfl)
      rfl
    simpa using h
  · have h := (C8_dispatch_order twoOkListener exampleEvent 25).2.2.2
      [alwaysOkHandler, alwaysOkHandler] rfl
      (by
        intro g hg
        simp only [List.mem_cons, List.mem_singleton] at hg
        rcases hg with hg | hg | hg
        · subst hg
          rfl
        · subst hg
          rfl
        · cases hg)
    simpa using h

/-- C2: re-encoding a decoded event yields a body that decodes back to the
same name and the same data map, and the literal example body decodes to
the name Domain\Event with the occurredOn data entry. -/
theorem C2_encode_decode_roundtrip (m m2 : Message) (e : Event)
    (_hdec : DecodeEvent m = some e)
    (hbody : m2.body = e.EncodeEvent)
    (hattr : alookup m2.messageAttributes ("RetryCount") = none) :
    (∃ e2, DecodeEvent m2 = some e2 ∧ e2.Name = e.Name ∧ e2.Data = e.Data) ∧
    DecodeEvent exampleMessage = some exampleEvent := by
  refine ⟨?_, by rfl⟩
  refine ⟨⟨e.name, e.data, m2.receiptHandle, alookup m2.attributes ("DeduplicationID"), 0⟩,
    ?_, rfl, rfl⟩
  simp only [DecodeEvent, hattr, hbody, unmarshalMessage_encode, unmarshal_marshal]

/-- A fresh message carrying the re-encoded example event as its body. -/
def reEncodedMessage : Message := ⟨"receipt-2", [], [], exampleEvent.EncodeEvent⟩

theorem C2_encode_decode_roundtrip_witness :
    (∃ e2, DecodeEvent reEncodedMessage = some e2 ∧
      e2.Name = exampleEvent.Name ∧ e2.Data = exampleEvent.Data) ∧
    DecodeEvent exampleMessage = some exampleEvent :=
  C2_encode_decode_roundtrip exampleMessage reEncodedMessage exampleEvent rfl rfl rfl

/-- C4: DecodeEvent fails exactly when the outer envelope fails to
unmarshal, or the inner document fails to unmarshal, or a present
RetryCount attribute fails to parse as an integer; an absent attribute
decodes to retryCount zero and a present parsable one to its parsed
value. -/
theorem C4_decode_error_conditions (m : Message) :
    (DecodeEvent m = none ↔
      (∃ s, alookup m.messageAttributes ("RetryCount") = some s ∧ atoi s = none) ∨
      unmarshalEncodedMessage m.body = none ∨
      (∃ inner, unmarshalEncodedMessage m.body = some inner ∧
        unmarshalEncodedEvent inner = none)) ∧
    (∀ e, alookup m.messageAttributes ("RetryCount") = none → DecodeEvent m = some e →
      e.retryCount = 0) ∧
    (∀ s k e, alookup m.messageAttributes ("RetryCount") = some s → atoi s = some k →
      DecodeEvent m = some e → e.retryCount = k) := by
  cases hra : alookup m.messageAttributes ("RetryCount") with
  | none =>
    cases hmsg : unmarshalEncodedMessage m.body with
    | none =>
      have hd : DecodeEvent m = none := by
        simp only [DecodeEvent, hra, hmsg]
      refine ⟨⟨fun _ => Or.inr (Or.inl rfl), fun _ => hd⟩, ?_, ?_⟩
      · intro e _ he
        rw [hd] at he
        cases he
      · intro s k e hs _ _
        cases hs
    | some inner =>
      cases hevt : unmarshalEncodedEvent inner with
      | none =>
        have hd : DecodeEvent m = none := by
          simp only [DecodeEvent, hra, hmsg, hevt]
        refine ⟨⟨fun _ => Or.inr (Or.inr ⟨inner, rfl, hevt⟩), fun _ => hd⟩, ?_, ?_⟩
        · intro e _ he
          rw [hd] at he
          cases he
        · intro s k e hs _ _
          cases hs
      | some evt =>
        have hd : DecodeEvent m = some ⟨evt.name, evt.data, m.receiptHandle,
            alookup m.attributes ("DeduplicationID"), 0⟩ := by
          simp only [DecodeEvent, hra, hmsg, hevt]
        refine ⟨⟨?_, ?_⟩, ?_, ?_⟩
        · intro habs
          rw [hd] at habs
          cases habs
        · intro hrhs
          rcases hrhs with ⟨s, hs, _⟩ | hm | ⟨inner2, hm2, hev2⟩
          · cases hs
          · cases hm
          · injection hm2 with hi
            rw [← hi] at hev2
            rw [hevt] at hev2
            cases hev2
        · intro e _ he
          rw [hd] at he
          injection he with he2
          rw [← he2]
        · intro s k e hs _ _
          cases hs
  | some s0 =>
    cases hat : atoi s0 with
    | none =>
      have hd : DecodeEvent m = none := by
        simp only [DecodeEvent, hra, hat]
      refine ⟨⟨fun _ => Or.inl ⟨s0, rfl, hat⟩, fun _ => hd⟩, ?_, ?_⟩
      · intro e habs _
        cases habs
      · intro s k e _ _ he
        rw [hd] at he
        cases he
    | some k0 =>
      cases hmsg : unmarshalEncodedMessage m.body with
      | none =>
        have hd : DecodeEvent m = none := by
          simp only [DecodeEvent, hra, hat, hmsg]
        refine ⟨⟨fun _ => Or.inr (Or.inl rfl), fun _ => hd⟩, ?_, ?_⟩
        · intro e habs _
          cases habs
        · intro s k e _ _ he
          rw [hd] at he
          cases he
      | some inner =>
        cases hevt : unmarshalEncodedEvent inner with
        | none =>
          have hd : DecodeEvent m = none := by
            simp only [DecodeEvent, hra, hat, hmsg, hevt]
          refine ⟨⟨fun _ => Or.inr (Or.inr ⟨inner, rfl, hevt⟩), fun _ => hd⟩, ?_, ?_⟩
          · intro e habs _
            cases habs
          · intro s k e _ _ he
            rw [hd] at he
            cases he
        | some evt =>
          have hd : DecodeEvent m = some ⟨evt.name, evt.data, m.receiptHandle,
              alookup m.attributes ("DeduplicationID"), k0⟩ := by
            simp only [DecodeEvent, hra, hat, hmsg, hevt]
          refine ⟨⟨?_, ?_⟩, ?_, ?_⟩
          · intro habs
            rw [hd] at habs
            cases habs
          · intro hrhs
            rcases hrhs with ⟨s, hs, hsn⟩ | hm | ⟨inner2, hm2, hev2⟩
            · injection hs with hs2
              rw [← hs2] at hsn
              rw [hat] at hsn
              cases hsn
            · cases hm
            · injection hm2 with hi
              rw [← hi] at hev2
              rw [hevt] at hev2
              cases hev2
          · intro e habs _
            cases habs
          · intro s k e hs hk he
            injection hs with hs2
            rw [← hs2] at hk
            rw [hat] at hk
            injection hk with hk2
            rw [hd] at he
            injection he with he2
            rw [← he2]
            exact hk2

/-- A message whose RetryCount attribute does not parse as an integer. -/
def badRetryMessage : Message :=
  ⟨"receipt-3", [], [(("RetryCount" : String), "x5")], exampleBody⟩

/-- The example message with RetryCount 5. -/
def retry5Message : Message :=
  ⟨"receipt-1", [], [(("RetryCount" : String), "5")], exampleBody⟩

theorem C4_decode_error_conditions_witness :
    DecodeEvent badRetryMessage = none ∧
    exampleEvent.retryCount = 0 ∧
    (exampleEventRC 5).retryCount = 5 := by
  refine ⟨?_, ?_, ?_⟩
  · exact (C4_decode_error_conditions badRetryMessage).1.mpr (Or.inl ⟨("x5"), rfl, rfl⟩)
  · exact (C4_decode_error_conditions exampleMessage).2.1 exampleEvent rfl rfl
  · exact (C4_decode_error_conditions retry5Message).2.2 ("5") 5 (exampleEventRC 5) rfl rfl rfl

/-- A message whose inner document is the empty JSON object. -/
def emptyishMessage : Message := ⟨"receipt-4", [], [], "\x7b\"Message\":\"\x7b\x7d\"\x7d"⟩

/-- C10: a body whose two JSON layers are well-formed but carry neither a
name nor a data field decodes without error into an event with empty name
and empty (nil) data map — no non-empty-name validation happens at decode
time; the body with inner document \x7b\x7d is such a message. -/
theorem C10_decode_without_name (m : Message) (kvs : List (String × JSONValue))
    (hattr : alookup m.messageAttributes ("RetryCount") = none)
    (hmsg : ∃ inner, unmarshalEncodedMessage m.body = some inner ∧
      parseJSON inner = some (.obj kvs))
    (hname : lookupLast kvs ("name") = none)
    (hdata : lookupLast kvs ("data") = none) :
    (∃ e, DecodeEvent m = some e ∧ e.Name = ("") ∧
      e.Data = ([] : List (String × JSONValue))) ∧
    DecodeEvent emptyishMessage = some ⟨"", [], "receipt-4", none, 0⟩ := by
  refine ⟨?_, by rfl⟩
  obtain ⟨inner, hin, hparse⟩ := hmsg
  have hevt : unmarshalEncodedEvent inner = some ⟨"", []⟩ := by
    unfold unmarshalEncodedEvent
    rw [hparse]
    show (match extractName (lookupLast kvs ("name")),
        extractData (lookupLast kvs ("data")) with
      | some nm, some d => some (⟨nm, d⟩ : EncodedEvent)
      | _, _ => none) = some (⟨"", []⟩ : EncodedEvent)
    rw [hname, hdata]
    rfl
  refine ⟨⟨"", [], m.receiptHandle, alookup m.attributes ("DeduplicationID"), 0⟩, ?_, rfl, rfl⟩
  simp only [DecodeEvent, hattr, hin, hevt]

theorem C10_decode_without_name_witness :
    (∃ e, DecodeEvent emptyishMessage = some e ∧ e.Name = ("") ∧
      e.Data = ([] : List (String × JSONValue))) ∧
    DecodeEvent emptyishMessage = some ⟨"", [], "receipt-4", none, 0⟩ :=
  C10_decode_without_name emptyishMessage [] rfl ⟨("\x7b\x7d"), rfl, rfl⟩ rfl rfl

/-- The under-capacity state the bad schedule gets stuck in. -/
def stuckPool : PoolState :=
  { counter := 3, live := 3, pendingStart := 0, pendingDone := 0, pendingDecr := 0,
    halting := false }

/-- C6 counterexample: with one registered event name (capacity 4), on the
schedule where the supervisor reads the workers counter before the exited
worker's deferred decrement has run, the pool reaches a non-halting state
with three live workers from which every reachable state keeps at most
three live workers — capacity is never restored after that single worker
exit, refuting the claimed restoration. -/
theorem C6_pool_restoration_counterexample :
    PoolReachable 4 (listenInit 4) stuckPool ∧
    stuckPool.halting = false ∧
    stuckPool.live = 3 ∧
    (∀ t, PoolReachable 4 stuckPool t → t.live ≤ 3) := by
  refine ⟨?_, rfl, rfl, ?_⟩
  · have h1 : PoolStep 4 (listenInit 4)
        { counter := 1, live := 1, pendingStart := 3, pendingDone := 0, pendingDecr := 0,
          halting := false } :=
      PoolStep.startWorker _ (by decide)
    have h2 : PoolStep 4
        { counter := 1, live := 1, pendingStart := 3, pendingDone := 0, pendingDecr := 0,
          halting := false }
        { counter := 2, live := 2, pendingStart := 2, pendingDone := 0, pendingDecr := 0,
          halting := false } :=
      PoolStep.startWorker _ (by decide)
    have h3 : PoolStep 4
        { counter := 2, live := 2, pendingStart := 2, pendingDone := 0, pendingDecr := 0,
          halting := false }
        { counter := 3, live := 3, pendingStart := 1, pendingDone := 0, pendingDecr := 0,
          halting := false } :=
      PoolStep.startWorker _ (by decide)
    have h4 : PoolStep 4
        { counter := 3, live := 3, pendingStart := 1, pendingDone := 0, pendingDecr := 0,
          halting := false }
        { counter := 4, live := 4, pendingStart := 0, pendingDone := 0, pendingDecr := 0,
          halting := false } :=
      PoolStep.startWorker _ (by decide)
    have h5 : PoolStep 4
        { counter := 4, live := 4, pendingStart := 0, pendingDone := 0, pendingDecr := 0,
          halting := false }
        { counter := 4, live := 3, pendingStart := 0, pendingDone := 1, pendingDecr := 1,
          halting := false } :=
      PoolStep.workerExit _ (by decide)
    have h6 : PoolStep 4
        { counter := 4, live := 3, pendingStart := 0, pendingDone := 1, pendingDecr := 1,
          halting := false }
        { counter := 4, live := 3, pendingStart := 0, pendingDone := 0, pendingDecr := 1,
          halting := false } :=
      PoolStep.superviseSkip _ rfl (by decide) (by decide)
    have h7 : PoolStep 4
        { counter := 4, live := 3, pendingStart := 0, pendingDone := 0, pendingDecr := 1,
          halting := false }
        stuckPool :=
      PoolStep.deferDecr _ (by decide)
    exact (Relation.ReflTransGen.single h1).trans
      ((Relation.ReflTransGen.single h2).trans
        ((Relation.ReflTransGen.single h3).trans
          ((Relation.ReflTransGen.single h4).trans
            ((Relation.ReflTransGen.single h5).trans
              ((Relation.ReflTransGen.single h6).trans
                (Relation.ReflTransGen.single h7))))))
  · intro t ht
    have hp := poolReachable_potential ht
    have hs : poolPotential stuckPool = 3 := rfl
    rw [hs] at hp
    have hl : t.live ≤ poolPotential t := by
      simp only [poolPotential]
      omega
    omega

/-- C6 (amended): Listen's pool capacity is four times the number of
handler-map entries, which is the number of distinct registered names
(a registration adds an entry only for a new name); Listen spawns exactly
capacity workers, zero of them for a listener without handlers, in which
case the live worker count stays zero forever (so nothing consumes the
event stream); the live worker count never exceeds capacity in any
reachable state; a non-halting supervisor holding a workerDone signal
spawns a replacement exactly when the counter value it reads is below
capacity; and on the schedule where the exited worker's decrement runs
before the supervisor's read, a single exit from the full pool is healed
back to capacity. -/
theorem C6_pool_supervision_amended (l : Listener) (capacity : Nat) (s : PoolState) :
    listenCapacity l = l.handlers.length * 4 ∧
    (∀ n fn, (l.RegisterHandler n fn).handlers.length =
      if (alookup l.handlers n).isSome then l.handlers.length
      else l.handlers.length + 1) ∧
    (listenInit (listenCapacity l)).pendingStart = listenCapacity l ∧
    listenCapacity newListener = 0 ∧
    (∀ t, PoolReachable 0 (listenInit 0) t → t.live = 0) ∧
    (∀ t, PoolReachable capacity (listenInit capacity) t → t.live ≤ capacity) ∧
    (s.halting = false → 0 < s.pendingDone →
      (s.counter < (capacity : Int) →
        PoolStep capacity s
          { s with pendingDone := s.pendingDone - 1,
                   pendingStart := s.pendingStart + 1 }) ∧
      (¬s.counter < (capacity : Int) →
        PoolStep capacity s { s with pendingDone := s.pendingDone - 1 })) ∧
    (0 < capacity →
      PoolStep capacity (fullPool capacity)
        { counter := (capacity : Int), live := capacity - 1, pendingStart := 0,
          pendingDone := 1, pendingDecr := 1, halting := false } ∧
      PoolReachable capacity
        { counter := (capacity : Int), live := capacity - 1, pendingStart := 0,
          pendingDone := 1, pendingDecr := 1, halting := false } (fullPool capacity)) := by
  refine ⟨rfl, ?_, rfl, rfl, ?_, fun t ht => pool_live_le_capacity ht, ?_,
    pool_restore_good_schedule capacity⟩
  · intro n fn
    exact addHandler_length l.handlers n fn
  · intro t ht
    have := pool_live_le_capacity ht
    omega
  · intro hh hd
    exact ⟨fun hc => PoolStep.superviseSpawn s hh hd hc,
      fun hc => PoolStep.superviseSkip s hh hd hc⟩

theorem C6_pool_supervision_amended_witness :
    listenCapacity threeHandlerListener = threeHandlerListener.handlers.length * 4 ∧
    (listenInit 0).live = 0 ∧
    (listenInit 4).live ≤ 4 ∧
    PoolStep 4
      ({ counter := 3, live := 3, pendingStart := 0, pendingDone := 1, pendingDecr := 0,
         halting := false } : PoolState)
      { counter := 3, live := 3, pendingStart := 1, pendingDone := 0, pendingDecr := 0,
        halting := false } ∧
    PoolReachable 4
      { counter := 4, live := 3, pendingStart := 0, pendingDone := 1, pendingDecr := 1,
        halting := false } (fullPool 4) := by
  refine ⟨(C6_pool_supervision_amended threeHandlerListener 4 (listenInit 4)).1, ?_, ?_, ?_, ?_⟩
  · exact (C6_pool_supervision_amended threeHandlerListener 0 (listenInit 0)).2.2.2.2.1
      (listenInit 0) Relation.ReflTransGen.refl
  · exact (C6_pool_supervision_amended threeHandlerListener 4 (listenInit 4)).2.2.2.2.2.1
      (listenInit 4) Relation.ReflTransGen.refl
  · exact ((C6_pool_supervision_amended threeHandlerListener 4
      { counter := 3, live := 3, pendingStart := 0, pendingDone := 1, pendingDecr := 0,
        halting := false }).2.2.2.2.2.2.1 rfl (by decide)).1 (by decide)
  · exact ((C6_pool_supervision_amended threeHandlerListener 4 (listenInit 4)).2.2.2.2.2.2.2
      (by decide)).2

/-- The state reached when Stop returns while the loop is one send away
from publishing a decoded event. -/
def stoppedMidBatch : ProviderState :=
  { phase := .sending [], eventsClosed := true, errorsClosed := true, doneSignal := true,
    stopReturned := true, sendsAfterStop := 1, sendsOnClosed := 1 }

/-- C9: with a batch received just before Stop() runs, the polling loop's
next publish happens after Stop() has already returned and lands on an
already closed stream (in Go, panic: send on closed channel), so the
claimed guarantee that after Stop() no further send on either stream ever
occurs does not hold; sends only cease once the loop's select observes the
done signal. -/
theorem C9_send_after_stop :
    ProviderReachable providerInit stoppedMidBatch ∧
    stoppedMidBatch.stopReturned = true ∧
    0 < stoppedMidBatch.sendsAfterStop ∧
    0 < stoppedMidBatch.sendsOnClosed := by
  refine ⟨?_, rfl, by decide, by decide⟩
  have h1 : ProviderStep providerInit
      { phase := .sending [exampleMessage], eventsClosed := false, errorsClosed := false,
        doneSignal := false, stopReturned := false, sendsAfterStop := 0,
        sendsOnClosed := 0 } :=
    ProviderStep.selectReceive providerInit [exampleMessage] rfl rfl rfl
  have h2 : ProviderStep
      { phase := .sending [exampleMessage], eventsClosed := false, errorsClosed := false,
        doneSignal := false, stopReturned := false, sendsAfterStop := 0,
        sendsOnClosed := 0 }
      { phase := .sending [exampleMessage], eventsClosed := true, errorsClosed := true,
        doneSignal := true, stopReturned := true, sendsAfterStop := 0,
        sendsOnClosed := 0 } :=
    ProviderStep.stopCall _ rfl
  have h3 : ProviderStep
      { phase := .sending [exampleMessage], eventsClosed := true, errorsClosed := true,
        doneSignal := true, stopReturned := true, sendsAfterStop := 0, sendsOnClosed := 0 }
      stoppedMidBatch :=
    ProviderStep.sendNext _ exampleMessage [] rfl
  exact (Relation.ReflTransGen.single h1).trans
    ((Relation.ReflTransGen.single h2).trans (Relation.ReflTransGen.single h3))
